import Mathlib

/-!
Verification development for the openapi-express-ts repository.

The TypeScript sources are shallowly embedded as executable Lean
definitions:

* `SchemaObject` mirrors the JSON-Schema-shaped objects built by the
  schema inference engine in `src/decorators.ts` (restricted to the
  fields this engine ever emits: `type`, `format`, `description`,
  `items`, `properties`).
* `goStep`/`go` embed the mutually recursive schema-inference functions
  `getTypeSchema`, `processArrayType`, `inferTypeFromName`,
  `processFunctionType`, `tryExtractMetadataProperties`,
  `tryInstantiateAndExtractProperties`, `processObjectInstance`,
  `inferSchemaFromValue` and `processArrayValue`.  JavaScript's general
  recursion over runtime object graphs is represented with an explicit
  fuel parameter; `none` means "ran out of fuel".  Each named source
  function gets a `Query` constructor and a wrapper definition.
* `generateOpenAPISpec` embeds `src/openapi.ts`.
* `createMethodDecorator` and `Controller` embed `src/decorators.ts`.
* `routeHandler` embeds the per-request dispatch wrapper of
  `src/register.ts`.

Runtime JavaScript objects that act as type descriptors are modelled as
nodes of a finite graph (`TypeEnv`): object identity becomes a natural
number index, and the mutable `schemaCache` keyed by identity becomes an
association list threaded through the computation.
-/

namespace OET

/-- Schema node produced by the inference engine (the `SchemaObject`
shapes actually constructed in `src/decorators.ts`). -/
inductive SchemaObject where
  | mk (type : String) (format : Option String) (description : Option String)
      (items : Option SchemaObject)
      (properties : Option (List (String × SchemaObject)))
deriving Repr

/-- The literal `{ type: 'object' }`. -/
def objectSchema : SchemaObject := .mk "object" none none none none

/-- The literal `{ type: 'string' }`. -/
def stringSchema : SchemaObject := .mk "string" none none none none

/-- The literal `{ type: 'number' }`. -/
def numberSchema : SchemaObject := .mk "number" none none none none

/-- The literal `{ type: 'boolean' }`. -/
def booleanSchema : SchemaObject := .mk "boolean" none none none none

/-- The literal `{ type: 'string', format: 'date-time' }`. -/
def dateTimeSchema : SchemaObject := .mk "string" (some "date-time") none none none

/-- The literal `{ type: 'string', format: 'binary' }`. -/
def binarySchema : SchemaObject := .mk "string" (some "binary") none none none

/-- The shape `{ type: 'array', items: ... }`. -/
def arraySchema (items : SchemaObject) : SchemaObject := .mk "array" none none (some items) none

/-- The shape `{ type: 'object', properties: ... }`. -/
def propsSchema (ps : List (String × SchemaObject)) : SchemaObject :=
  .mk "object" none none none (some ps)

/-- The fallback `{ type: 'object', description: "Schema for type <Name>" }`
built at the end of `processFunctionType` (`type.name || 'Unknown'`). -/
def namedFallbackSchema (name : String) : SchemaObject :=
  .mk "object" none (some ("Schema for type " ++ (if name = "" then "Unknown" else name))) none none

/-- Association-list lookup, modelling `Map.get` / JavaScript property read. -/
def alookup {α β : Type} [DecidableEq α] : α → List (α × β) → Option β
  | _, [] => none
  | k, (k0, v0) :: rest => if k0 = k then some v0 else alookup k rest

/-- Association-list update, modelling `Map.set` / JavaScript property
write: an existing key keeps its position, a new key is appended. -/
def assocSet {α β : Type} [DecidableEq α] : List (α × β) → α → β → List (α × β)
  | [], k, v => [(k, v)]
  | (k0, v0) :: rest, k, v => if k0 = k then (k0, v) :: rest else (k0, v0) :: assocSet rest k v

/-- Does the string begin with a given character (models
`String.prototype.startsWith` with a one-character argument)? -/
def startsWithChar (s : String) (c : Char) : Bool :=
  match s.data with
  | [] => false
  | c0 :: _ => c0 = c

/-- Whether the character list begins with the given pattern list. -/
def startsWithList : List Char → List Char → Bool
  | [], _ => true
  | _ :: _, [] => false
  | p :: ps, c :: cs => p = c && startsWithList ps cs

/-- Models `String.prototype.includes` on the underlying character lists. -/
def listIncludes (pat : List Char) : List Char → Bool
  | [] => pat.isEmpty
  | c :: rest => startsWithList pat (c :: rest) || listIncludes pat rest

/-- Models `s.includes(pat)`. -/
def strIncludes (s pat : String) : Bool := listIncludes pat.data s.data

/-- Does the regex `/param\d+/` match at the head of the list? -/
def paramDigitHere : List Char → Bool
  | 'p' :: 'a' :: 'r' :: 'a' :: 'm' :: d :: _ => d.isDigit
  | _ => false

/-- Models `returnStmt.match(/param\d+/) !== null`. -/
def hasParamDigitList : List Char → Bool
  | [] => false
  | c :: rest => paramDigitHere (c :: rest) || hasParamDigitList rest

/-- Models `s.match(/param\d+/) !== null`. -/
def hasParamDigitStr (s : String) : Bool := hasParamDigitList s.data

/-- Attempt to match the regex `/Array<([^>]+)>/` at the head of the
list, returning the captured group. -/
def arrayGenericHere (l : List Char) : Option String :=
  if startsWithList ("Array<".data) l then
    let after := l.drop 6
    let cap := after.takeWhile (fun c => c ≠ '>')
    if cap.isEmpty then none
    else if cap.length < after.length then some (String.mk cap) else none
  else none

/-- Scan the list for the first match of `/Array<([^>]+)>/`. -/
def arrayGenericScan : List Char → Option String
  | [] => none
  | c :: rest =>
    match arrayGenericHere (c :: rest) with
    | some s => some s
    | none => arrayGenericScan rest

/-- Models `typeStr.match(/Array<([^>]+)>/)` and extraction of group 1. -/
def matchArrayGeneric (s : String) : Option String := arrayGenericScan s.data

/-- Models `parseInt(returnStmt.replace(/\D/g, ''))`: strip every
non-digit and parse; `none` is NaN (no digits at all). -/
def parseIntDigits (s : String) : Option Nat :=
  let ds := s.data.filter Char.isDigit
  if ds.isEmpty then none
  else some (ds.foldl (fun n c => n * 10 + (c.toNat - 48)) 0)

/-- Runtime value shapes distinguished by `inferSchemaFromValue`.  An
object value points at the graph node of its constructor (the source
recurses into `value.constructor`); an array value records its first
element, the only one the source inspects. -/
inductive ValueDesc where
  | vNull
  | vString
  | vNumber
  | vBool
  | vDate
  | vArray (first : Option ValueDesc)
  | vObject (ctor : Nat)
  | vOther
deriving Repr

/-- One node of the type-descriptor graph, classifying the runtime value
passed to `getTypeSchema` by which branch of the source it takes.
`funcT` records everything `processFunctionType` and its helpers can
observe about a constructor: `design:properties` and `design:type`
metadata (property name to descriptor node), the outcome of `new type()`
(`none` means the constructor threw), the property names matched by the
`/this\.(\w+)\s*=/g` scan of its source text, and the parameter names
parsed from its signature when it has no prototype. -/
inductive TypeDesc where
  | nullT
  | stringT
  | numberT
  | booleanT
  | dateT
  | bufferT
  | objectT
  | arrayT (typeStr : String)
  | funcT (name : String) (hasPrototype : Bool)
      (designProps : List (String × Nat)) (ctorProps : List (String × Nat))
      (instantiation : Option (List (String × ValueDesc)))
      (srcProps : List String) (fnParams : List String)
  | objInst (props : List (String × ValueDesc))
deriving Repr

/-- The finite graph of runtime type descriptors present at declaration
time, plus the partial `global[typeName]` lookup used by
`inferTypeFromName` (returning a node only when the global is a
function). -/
structure TypeEnv where
  univ : List TypeDesc
  glb : String → Option Nat

/-- The `schemaCache` map, keyed by descriptor identity. -/
def Cache : Type := List (Nat × SchemaObject)

/-- Result of `tryExtractPropertiesFromConstructorSource`: every matched
`this.<name> =` property receives an opaque object schema. -/
def sourceScanProps (srcProps : List String) : List (String × SchemaObject) :=
  srcProps.foldl (fun acc k => assocSet acc k objectSchema) []

/-- Result of `tryExtractPropertiesFromFunction`: each nonempty
parameter without a default value receives an opaque object schema
(`inferPropertiesFromTypeName` intentionally adds nothing). -/
def functionSignatureProps (fnParams : List String) : List (String × SchemaObject) :=
  (fnParams.filter (fun p => p ≠ "" && !(p.contains '='))).foldl
    (fun acc k => assocSet acc k objectSchema) []

/-- Tail of `processFunctionType`: collected properties if any, else the
named fallback schema. -/
def finishFunctionType (name : String) (ps : List (String × SchemaObject)) : SchemaObject :=
  if ps.isEmpty then namedFallbackSchema name else propsSchema ps

/-- Call shapes of the mutually recursive schema-inference functions.
Each constructor corresponds to one source function (the two `...Q acc`
fold constructors are the property loops inside
`tryExtractMetadataProperties`, `tryInstantiateAndExtractProperties`
and `processObjectInstance`). -/
inductive Query where
  | typeQ (id : Nat)
  | arrayTypeQ (typeStr : String)
  | typeNameQ (typeName : String)
  | functionTypeQ (name : String) (hasPrototype : Bool)
      (designProps ctorProps : List (String × Nat))
      (instantiation : Option (List (String × ValueDesc)))
      (srcProps fnParams : List String)
  | metaPropsQ (props : List (String × Nat)) (acc : List (String × SchemaObject))
  | instPropsQ (vals : List (String × ValueDesc)) (acc : List (String × SchemaObject))
  | objPropsQ (vals : List (String × ValueDesc)) (acc : List (String × SchemaObject))
  | objInstQ (props : List (String × ValueDesc))
  | valueQ (v : ValueDesc)
  | arrayValueQ (first : Option ValueDesc)

/-- Answers: a schema (for the schema-producing functions) or a property
record (for the property-collection loops). -/
inductive Answer where
  | schema (s : SchemaObject)
  | props (ps : List (String × SchemaObject))
deriving Repr

/-- Type of one inference step: a query plus the current cache. -/
abbrev GoFun : Type := Query → Cache → Option (Answer × Cache)

/-- Continuation that expects a schema-shaped sub-result, like the
source call sites `getTypeSchema(...)` / `inferSchemaFromValue(...)`. -/
def bindSchema (x : Option (Answer × Cache))
    (f : SchemaObject → Cache → Option (Answer × Cache)) : Option (Answer × Cache) :=
  match x with
  | some (.schema s, c) => f s c
  | _ => none

/-- Continuation that expects a property-record sub-result (the value of
one of the property-collection loops). -/
def bindProps (x : Option (Answer × Cache))
    (f : List (String × SchemaObject) → Cache → Option (Answer × Cache)) :
    Option (Answer × Cache) :=
  match x with
  | some (.props ps, c) => f ps c
  | _ => none

/-- One step of the schema-inference engine; `rec` stands for all
recursive calls (they run at one less fuel).  Each `Query` case is a
direct transcription of the corresponding function in
`src/decorators.ts`. -/
def goStep (env : TypeEnv) (rec : GoFun) : GoFun := fun q cache =>
  match q with
  | .typeQ id =>
    match alookup id cache with
    | some s => some (.schema s, cache)
    | none =>
      let cache1 := assocSet cache id objectSchema
      match env.univ.get? id with
      | none => some (.schema objectSchema, cache1)
      | some .nullT => some (.schema objectSchema, cache1)
      | some .stringT => some (.schema stringSchema, assocSet cache1 id stringSchema)
      | some .numberT => some (.schema numberSchema, assocSet cache1 id numberSchema)
      | some .booleanT => some (.schema booleanSchema, assocSet cache1 id booleanSchema)
      | some .dateT => some (.schema dateTimeSchema, assocSet cache1 id dateTimeSchema)
      | some .bufferT => some (.schema binarySchema, assocSet cache1 id binarySchema)
      | some (.arrayT ts) =>
        bindSchema (rec (.arrayTypeQ ts) cache1) fun s c => some (.schema s, assocSet c id s)
      | some .objectT => some (.schema objectSchema, assocSet cache1 id objectSchema)
      | some (.funcT nm hp dp cp inst sp fp) =>
        bindSchema (rec (.functionTypeQ nm hp dp cp inst sp fp) cache1) fun s c =>
          some (.schema s, assocSet c id s)
      | some (.objInst vals) =>
        bindSchema (rec (.objInstQ vals) cache1) fun s c => some (.schema s, assocSet c id s)
  | .arrayTypeQ ts =>
    match matchArrayGeneric ts with
    | some nm =>
      bindSchema (rec (.typeNameQ nm.trim) cache) fun it c =>
        some (.schema (arraySchema it), c)
    | none => some (.schema (arraySchema objectSchema), cache)
  | .typeNameQ nm =>
    if nm = "string" ∨ nm = "String" then some (.schema stringSchema, cache)
    else if nm = "number" ∨ nm = "Number" then some (.schema numberSchema, cache)
    else if nm = "boolean" ∨ nm = "Boolean" then some (.schema booleanSchema, cache)
    else if nm = "Date" then some (.schema dateTimeSchema, cache)
    else
      match env.glb nm with
      | some gid => rec (.typeQ gid) cache
      | none => some (.schema objectSchema, cache)
  | .functionTypeQ nm hp dp cp inst sp fp =>
    if hp then
      bindProps (rec (.metaPropsQ (dp ++ cp) []) cache) fun ps c1 =>
        if ps.isEmpty then
          match inst with
          | some vals =>
            bindProps (rec (.instPropsQ vals []) c1) fun ps2 c2 =>
              some (.schema (finishFunctionType nm ps2), c2)
          | none => some (.schema (finishFunctionType nm (sourceScanProps sp)), c1)
        else some (.schema (finishFunctionType nm ps), c1)
    else some (.schema (finishFunctionType nm (functionSignatureProps fp)), cache)
  | .metaPropsQ [] acc => some (.props acc, cache)
  | .metaPropsQ ((k, tid) :: rest) acc =>
    bindSchema (rec (.typeQ tid) cache) fun s c =>
      rec (.metaPropsQ rest (assocSet acc k s)) c
  | .instPropsQ [] acc => some (.props acc, cache)
  | .instPropsQ ((k, v) :: rest) acc =>
    if k ≠ "constructor" ∧ ¬ startsWithChar k '_' then
      bindSchema (rec (.valueQ v) cache) fun s c =>
        rec (.instPropsQ rest (assocSet acc k s)) c
    else rec (.instPropsQ rest acc) cache
  | .objPropsQ [] acc => some (.props acc, cache)
  | .objPropsQ ((k, v) :: rest) acc =>
    bindSchema (rec (.valueQ v) cache) fun s c =>
      rec (.objPropsQ rest (assocSet acc k s)) c
  | .objInstQ vals =>
    bindProps (rec (.objPropsQ vals []) cache) fun ps c =>
      some (.schema (propsSchema ps), c)
  | .valueQ v =>
    match v with
    | .vNull => some (.schema objectSchema, cache)
    | .vString => some (.schema stringSchema, cache)
    | .vNumber => some (.schema numberSchema, cache)
    | .vBool => some (.schema booleanSchema, cache)
    | .vDate => some (.schema dateTimeSchema, cache)
    | .vArray first => rec (.arrayValueQ first) cache
    | .vObject ctorId => rec (.typeQ ctorId) cache
    | .vOther => some (.schema objectSchema, cache)
  | .arrayValueQ first =>
    match first with
    | some v =>
      bindSchema (rec (.valueQ v) cache) fun s c => some (.schema (arraySchema s), c)
    | none => some (.schema (arraySchema objectSchema), cache)

/-- Fueled schema-inference engine: `none` means the fuel ran out. -/
def go (env : TypeEnv) : Nat → GoFun
  | 0 => fun _ _ => none
  | Nat.succ n => goStep env (go env n)

/-- Wrapper with the name and interface of the source `getTypeSchema`. -/
def getTypeSchema (env : TypeEnv) (fuel : Nat) (id : Nat) (cache : Cache) :
    Option (SchemaObject × Cache) :=
  match go env fuel (.typeQ id) cache with
  | some (.schema s, c) => some (s, c)
  | _ => none

/-- Wrapper with the name and interface of the source `inferSchemaFromValue`. -/
def inferSchemaFromValue (env : TypeEnv) (fuel : Nat) (v : ValueDesc) (cache : Cache) :
    Option (SchemaObject × Cache) :=
  match go env fuel (.valueQ v) cache with
  | some (.schema s, c) => some (s, c)
  | _ => none

/-- Basic lookup/update law: updating a key makes it present with the new value. -/
theorem alookup_assocSet_self {α β : Type} [DecidableEq α] (l : List (α × β)) (k : α) (v : β) :
    alookup k (assocSet l k v) = some v := by
  induction l with
  | nil => simp [assocSet, alookup]
  | cons h t ih =>
    obtain ⟨k0, v0⟩ := h
    by_cases hk : k0 = k
    · subst hk; simp [assocSet, alookup]
    · simp [assocSet, alookup, hk, ih]

/-- Basic lookup/update law: other keys are unaffected. -/
theorem alookup_assocSet_ne {α β : Type} [DecidableEq α] (l : List (α × β)) {k k' : α} (v : β)
    (h : k' ≠ k) : alookup k' (assocSet l k v) = alookup k' l := by
  induction l with
  | nil =>
    have hne : ¬ k = k' := fun he => h he.symm
    simp [assocSet, alookup, hne]
  | cons hd t ih =>
    obtain ⟨k0, v0⟩ := hd
    by_cases hk : k0 = k
    · subst hk
      have hne : ¬ k0 = k' := fun he => h he.symm
      simp [assocSet, alookup, hne]
    · simp only [assocSet, if_neg hk, alookup]
      by_cases hk' : k0 = k'
      · simp [hk']
      · simp [hk', ih]

/-- Updating can only add keys, never remove them. -/
theorem alookup_isSome_assocSet {α β : Type} [DecidableEq α] (l : List (α × β)) (k k' : α)
    (v : β) (h : (alookup k' l).isSome) : (alookup k' (assocSet l k v)).isSome := by
  by_cases hk : k' = k
  · subst hk; rw [alookup_assocSet_self]; rfl
  · rwa [alookup_assocSet_ne l v hk]

/-- Cache extension order: every key cached in `c` is still cached in `c'`. -/
def growsTo (c c' : Cache) : Prop := ∀ k, (alookup k c).isSome → (alookup k c').isSome

theorem growsTo_refl (c : Cache) : growsTo c c := fun _ h => h

theorem growsTo_trans {a b c : Cache} (h1 : growsTo a b) (h2 : growsTo b c) : growsTo a c :=
  fun k hk => h2 k (h1 k hk)

theorem growsTo_assocSet (c : Cache) (k : Nat) (v : SchemaObject) : growsTo c (assocSet c k v) :=
  fun k' hk' => alookup_isSome_assocSet c k k' v hk'

/-- Unfolding laws for the fueled engine. -/
theorem go_zero (env : TypeEnv) (q : Query) (c : Cache) : go env 0 q c = none := rfl

theorem go_succ (env : TypeEnv) (n : Nat) (q : Query) (c : Cache) :
    go env (n + 1) q c = goStep env (go env n) q c := rfl

/-- Congruence for `bindSchema` under a pointwise refinement of the
sub-computation and of the continuation. -/
theorem bindSchema_mono {x1 x2 : Option (Answer × Cache)}
    {f1 f2 : SchemaObject → Cache → Option (Answer × Cache)} {out : Answer × Cache}
    (hm : ∀ r, x1 = some r → x2 = some r)
    (hf : ∀ s c, f1 s c = some out → f2 s c = some out)
    (h : bindSchema x1 f1 = some out) : bindSchema x2 f2 = some out := by
  match x1, h with
  | some (.schema s, c), h =>
    rw [hm _ rfl]
    exact hf s c h

/-- Congruence for `bindProps`, as for `bindSchema`. -/
theorem bindProps_mono {x1 x2 : Option (Answer × Cache)}
    {f1 f2 : List (String × SchemaObject) → Cache → Option (Answer × Cache)} {out : Answer × Cache}
    (hm : ∀ r, x1 = some r → x2 = some r)
    (hf : ∀ ps c, f1 ps c = some out → f2 ps c = some out)
    (h : bindProps x1 f1 = some out) : bindProps x2 f2 = some out := by
  match x1, h with
  | some (.props ps, c), h =>
    rw [hm _ rfl]
    exact hf ps c h

/-- One engine step is monotone in the interpretation of its recursive calls. -/
theorem goStep_mono {env : TypeEnv} {r1 r2 : GoFun}
    (h : ∀ q c out, r1 q c = some out → r2 q c = some out) :
    ∀ q c out, goStep env r1 q c = some out → goStep env r2 q c = some out := by
  intro q c out hstep
  cases q with
  | typeQ tid =>
    simp only [goStep] at hstep ⊢
    cases hl : alookup tid c with
    | some s => simp only [hl] at hstep ⊢; exact hstep
    | none =>
      simp only [hl] at hstep ⊢
      cases hg : env.univ.get? tid with
      | none => simp only [hg] at hstep ⊢; exact hstep
      | some d =>
        simp only [hg] at hstep ⊢
        cases d <;>
          first
          | exact hstep
          | exact bindSchema_mono (fun r hr => h _ _ r hr) (fun _ _ hx => hx) hstep
  | arrayTypeQ ts =>
    simp only [goStep] at hstep ⊢
    cases hm : matchArrayGeneric ts with
    | none => simp only [hm] at hstep ⊢; exact hstep
    | some nm =>
      simp only [hm] at hstep ⊢
      exact bindSchema_mono (fun r hr => h _ _ r hr) (fun _ _ hx => hx) hstep
  | typeNameQ nm =>
    simp only [goStep] at hstep ⊢
    split_ifs at hstep ⊢ <;> try exact hstep
    cases hg : env.glb nm with
    | none => simp only [hg] at hstep ⊢; exact hstep
    | some gid => simp only [hg] at hstep ⊢; exact h _ _ _ hstep
  | functionTypeQ nm hp dp cp inst sp fp =>
    simp only [goStep] at hstep ⊢
    cases hp with
    | false => simp only [Bool.false_eq_true, if_false] at hstep ⊢; exact hstep
    | true =>
      simp only [if_true] at hstep ⊢
      refine bindProps_mono (fun r hr => h _ _ r hr) (fun ps c1 hin => ?_) hstep
      by_cases hps : ps.isEmpty
      · simp only [hps, if_true] at hin ⊢
        cases inst with
        | none => exact hin
        | some vals =>
          exact bindProps_mono (fun r hr => h _ _ r hr) (fun _ _ hx => hx) hin
      · simp only [hps, if_false] at hin ⊢; exact hin
  | metaPropsQ props acc =>
    cases props with
    | nil => simpa only [goStep] using hstep
    | cons hd rest =>
      obtain ⟨k, tid⟩ := hd
      simp only [goStep] at hstep ⊢
      exact bindSchema_mono (fun r hr => h _ _ r hr) (fun s c1 hin => h _ _ _ hin) hstep
  | instPropsQ vals acc =>
    cases vals with
    | nil => simpa only [goStep] using hstep
    | cons hd rest =>
      obtain ⟨k, v⟩ := hd
      simp only [goStep] at hstep ⊢
      by_cases hk : k ≠ "constructor" ∧ ¬ startsWithChar k '_'
      · simp only [if_pos hk] at hstep ⊢
        exact bindSchema_mono (fun r hr => h _ _ r hr) (fun s c1 hin => h _ _ _ hin) hstep
      · simp only [if_neg hk] at hstep ⊢
        exact h _ _ _ hstep
  | objPropsQ vals acc =>
    cases vals with
    | nil => simpa only [goStep] using hstep
    | cons hd rest =>
      obtain ⟨k, v⟩ := hd
      simp only [goStep] at hstep ⊢
      exact bindSchema_mono (fun r hr => h _ _ r hr) (fun s c1 hin => h _ _ _ hin) hstep
  | objInstQ vals =>
    simp only [goStep] at hstep ⊢
    exact bindProps_mono (fun r hr => h _ _ r hr) (fun _ _ hx => hx) hstep
  | valueQ v =>
    simp only [goStep] at hstep ⊢
    cases v <;> first | exact hstep | exact h _ _ _ hstep
  | arrayValueQ first =>
    simp only [goStep] at hstep ⊢
    cases first with
    | none => exact hstep
    | some v =>
      exact bindSchema_mono (fun r hr => h _ _ r hr) (fun _ _ hx => hx) hstep

/-- Fuel monotonicity, one step. -/
theorem go_mono_succ (env : TypeEnv) :
    ∀ n q c out, go env n q c = some out → go env (n + 1) q c = some out := by
  intro n
  induction n with
  | zero => intro q c out h; rw [go_zero] at h; cases h
  | succ n ih =>
    intro q c out h
    rw [go_succ] at h
    rw [go_succ]
    exact goStep_mono ih q c out h

/-- Fuel monotonicity: a successful result is stable under more fuel. -/
theorem go_mono_le (env : TypeEnv) {n m : Nat} (hnm : n ≤ m) :
    ∀ q c out, go env n q c = some out → go env m q c = some out := by
  induction hnm with
  | refl => exact fun _ _ _ h => h
  | step _ ih => exact fun q c out h => go_mono_succ env _ q c out (ih q c out h)

/-- One engine step only ever extends the cache, assuming the recursive
calls do. -/
theorem goStep_grows {env : TypeEnv} {rec : GoFun}
    (hrec : ∀ q c a c', rec q c = some (a, c') → growsTo c c') :
    ∀ q c a c', goStep env rec q c = some (a, c') → growsTo c c' := by
  intro q c a c' hstep
  cases q with
  | typeQ tid =>
    simp only [goStep] at hstep
    cases hl : alookup tid c with
    | some s =>
      simp only [hl, Option.some.injEq, Prod.mk.injEq] at hstep
      obtain ⟨rfl, rfl⟩ := hstep
      exact growsTo_refl c
    | none =>
      simp only [hl] at hstep
      cases hg : env.univ.get? tid with
      | none =>
        simp only [hg, Option.some.injEq, Prod.mk.injEq] at hstep
        obtain ⟨rfl, rfl⟩ := hstep
        exact growsTo_assocSet c tid objectSchema
      | some d =>
        simp only [hg] at hstep
        cases d with
        | nullT =>
          simp only [Option.some.injEq, Prod.mk.injEq] at hstep
          obtain ⟨rfl, rfl⟩ := hstep
          exact growsTo_assocSet c tid objectSchema
        | stringT =>
          simp only [Option.some.injEq, Prod.mk.injEq] at hstep
          obtain ⟨rfl, rfl⟩ := hstep
          exact growsTo_trans (growsTo_assocSet _ _ _) (growsTo_assocSet _ _ _)
        | numberT =>
          simp only [Option.some.injEq, Prod.mk.injEq] at hstep
          obtain ⟨rfl, rfl⟩ := hstep
          exact growsTo_trans (growsTo_assocSet _ _ _) (growsTo_assocSet _ _ _)
        | booleanT =>
          simp only [Option.some.injEq, Prod.mk.injEq] at hstep
          obtain ⟨rfl, rfl⟩ := hstep
          exact growsTo_trans (growsTo_assocSet _ _ _) (growsTo_assocSet _ _ _)
        | dateT =>
          simp only [Option.some.injEq, Prod.mk.injEq] at hstep
          obtain ⟨rfl, rfl⟩ := hstep
          exact growsTo_trans (growsTo_assocSet _ _ _) (growsTo_assocSet _ _ _)
        | bufferT =>
          simp only [Option.some.injEq, Prod.mk.injEq] at hstep
          obtain ⟨rfl, rfl⟩ := hstep
          exact growsTo_trans (growsTo_assocSet _ _ _) (growsTo_assocSet _ _ _)
        | objectT =>
          simp only [Option.some.injEq, Prod.mk.injEq] at hstep
          obtain ⟨rfl, rfl⟩ := hstep
          exact growsTo_trans (growsTo_assocSet _ _ _) (growsTo_assocSet _ _ _)
        | arrayT ts =>
          cases hsub : rec (.arrayTypeQ ts) (assocSet c tid objectSchema) with
          | none => simp [hsub, bindSchema] at hstep
          | some r =>
            obtain ⟨ans, c2⟩ := r
            cases ans with
            | props ps => simp [hsub, bindSchema] at hstep
            | schema s =>
              simp only [hsub, bindSchema, Option.some.injEq, Prod.mk.injEq] at hstep
              obtain ⟨rfl, rfl⟩ := hstep
              exact growsTo_trans (growsTo_assocSet _ _ _)
                (growsTo_trans (hrec _ _ _ _ hsub) (growsTo_assocSet _ _ _))
        | funcT nm hp dp cp inst sp fp =>
          cases hsub : rec (.functionTypeQ nm hp dp cp inst sp fp) (assocSet c tid objectSchema) with
          | none => simp [hsub, bindSchema] at hstep
          | some r =>
            obtain ⟨ans, c2⟩ := r
            cases ans with
            | props ps => simp [hsub, bindSchema] at hstep
            | schema s =>
              simp only [hsub, bindSchema, Option.some.injEq, Prod.mk.injEq] at hstep
              obtain ⟨rfl, rfl⟩ := hstep
              exact growsTo_trans (growsTo_assocSet _ _ _)
                (growsTo_trans (hrec _ _ _ _ hsub) (growsTo_assocSet _ _ _))
        | objInst vals =>
          cases hsub : rec (.objInstQ vals) (assocSet c tid objectSchema) with
          | none => simp [hsub, bindSchema] at hstep
          | some r =>
            obtain ⟨ans, c2⟩ := r
            cases ans with
            | props ps => simp [hsub, bindSchema] at hstep
            | schema s =>
              simp only [hsub, bindSchema, Option.some.injEq, Prod.mk.injEq] at hstep
              obtain ⟨rfl, rfl⟩ := hstep
              exact growsTo_trans (growsTo_assocSet _ _ _)
                (growsTo_trans (hrec _ _ _ _ hsub) (growsTo_assocSet _ _ _))
  | arrayTypeQ ts =>
    simp only [goStep] at hstep
    cases hm : matchArrayGeneric ts with
    | none =>
      simp only [hm, Option.some.injEq, Prod.mk.injEq] at hstep
      obtain ⟨rfl, rfl⟩ := hstep
      exact growsTo_refl c
    | some nm =>
      simp only [hm] at hstep
      cases hsub : rec (.typeNameQ nm.trim) c with
      | none => simp [hsub, bindSchema] at hstep
      | some r =>
        obtain ⟨ans, c2⟩ := r
        cases ans with
        | props ps => simp [hsub, bindSchema] at hstep
        | schema s =>
          simp only [hsub, bindSchema, Option.some.injEq, Prod.mk.injEq] at hstep
          obtain ⟨rfl, rfl⟩ := hstep
          exact hrec _ _ _ _ hsub
  | typeNameQ nm =>
    simp only [goStep] at hstep
    split_ifs at hstep <;>
      try (simp only [Option.some.injEq, Prod.mk.injEq] at hstep;
           obtain ⟨rfl, rfl⟩ := hstep; exact growsTo_refl c)
    cases hg : env.glb nm with
    | none =>
      simp only [hg, Option.some.injEq, Prod.mk.injEq] at hstep
      obtain ⟨rfl, rfl⟩ := hstep
      exact growsTo_refl c
    | some gid =>
      simp only [hg] at hstep
      exact hrec _ _ _ _ hstep
  | functionTypeQ nm hp dp cp inst sp fp =>
    simp only [goStep] at hstep
    cases hp with
    | false =>
      simp only [Bool.false_eq_true, if_false, Option.some.injEq, Prod.mk.injEq] at hstep
      obtain ⟨rfl, rfl⟩ := hstep
      exact growsTo_refl c
    | true =>
      simp only [if_true] at hstep
      cases hsub : rec (.metaPropsQ (dp ++ cp) []) c with
      | none => simp [hsub, bindProps] at hstep
      | some r =>
        obtain ⟨ans, c1⟩ := r
        cases ans with
        | schema s => simp [hsub, bindProps] at hstep
        | props ps =>
          simp only [hsub, bindProps] at hstep
          by_cases hps : ps.isEmpty
          · simp only [hps, if_true] at hstep
            cases inst with
            | none =>
              simp only [Option.some.injEq, Prod.mk.injEq] at hstep
              obtain ⟨rfl, rfl⟩ := hstep
              exact hrec _ _ _ _ hsub
            | some vals =>
              cases hsub2 : rec (.instPropsQ vals []) c1 with
              | none => simp [hsub2, bindProps] at hstep
              | some r2 =>
                obtain ⟨ans2, c2⟩ := r2
                cases ans2 with
                | schema s2 => simp [hsub2, bindProps] at hstep
                | props ps2 =>
                  simp only [hsub2, bindProps, Option.some.injEq, Prod.mk.injEq] at hstep
                  obtain ⟨rfl, rfl⟩ := hstep
                  exact growsTo_trans (hrec _ _ _ _ hsub) (hrec _ _ _ _ hsub2)
          · simp only [hps, if_false, Option.some.injEq, Prod.mk.injEq] at hstep
            obtain ⟨rfl, rfl⟩ := hstep
            exact hrec _ _ _ _ hsub
  | metaPropsQ props acc =>
    cases props with
    | nil =>
      simp only [goStep, Option.some.injEq, Prod.mk.injEq] at hstep
      obtain ⟨rfl, rfl⟩ := hstep
      exact growsTo_refl c
    | cons hd rest =>
      obtain ⟨k, tid⟩ := hd
      simp only [goStep] at hstep
      cases hsub : rec (.typeQ tid) c with
      | none => simp [hsub, bindSchema] at hstep
      | some r =>
        obtain ⟨ans, c1⟩ := r
        cases ans with
        | props ps => simp [hsub, bindSchema] at hstep
        | schema s =>
          simp only [hsub, bindSchema] at hstep
          exact growsTo_trans (hrec _ _ _ _ hsub) (hrec _ _ _ _ hstep)
  | instPropsQ vals acc =>
    cases vals with
    | nil =>
      simp only [goStep, Option.some.injEq, Prod.mk.injEq] at hstep
      obtain ⟨rfl, rfl⟩ := hstep
      exact growsTo_refl c
    | cons hd rest =>
      obtain ⟨k, v⟩ := hd
      simp only [goStep] at hstep
      by_cases hk : k ≠ "constructor" ∧ ¬ startsWithChar k '_'
      · simp only [if_pos hk] at hstep
        cases hsub : rec (.valueQ v) c with
        | none => simp [hsub, bindSchema] at hstep
        | some r =>
          obtain ⟨ans, c1⟩ := r
          cases ans with
          | props ps => simp [hsub, bindSchema] at hstep
          | schema s =>
            simp only [hsub, bindSchema] at hstep
            exact growsTo_trans (hrec _ _ _ _ hsub) (hrec _ _ _ _ hstep)
      · simp only [if_neg hk] at hstep
        exact hrec _ _ _ _ hstep
  | objPropsQ vals acc =>
    cases vals with
    | nil =>
      simp only [goStep, Option.some.injEq, Prod.mk.injEq] at hstep
      obtain ⟨rfl, rfl⟩ := hstep
      exact growsTo_refl c
    | cons hd rest =>
      obtain ⟨k, v⟩ := hd
      simp only [goStep] at hstep
      cases hsub : rec (.valueQ v) c with
      | none => simp [hsub, bindSchema] at hstep
      | some r =>
        obtain ⟨ans, c1⟩ := r
        cases ans with
        | props ps => simp [hsub, bindSchema] at hstep
        | schema s =>
          simp only [hsub, bindSchema] at hstep
          exact growsTo_trans (hrec _ _ _ _ hsub) (hrec _ _ _ _ hstep)
  | objInstQ vals =>
    simp only [goStep] at hstep
    cases hsub : rec (.objPropsQ vals []) c with
    | none => simp [hsub, bindProps] at hstep
    | some r =>
      obtain ⟨ans, c1⟩ := r
      cases ans with
      | schema s => simp [hsub, bindProps] at hstep
      | props ps =>
        simp only [hsub, bindProps, Option.some.injEq, Prod.mk.injEq] at hstep
        obtain ⟨rfl, rfl⟩ := hstep
        exact hrec _ _ _ _ hsub
  | valueQ v =>
    simp only [goStep] at hstep
    cases v <;>
      first
      | exact hrec _ _ _ _ hstep
      | (simp only [Option.some.injEq, Prod.mk.injEq] at hstep;
         obtain ⟨rfl, rfl⟩ := hstep; exact growsTo_refl c)
  | arrayValueQ first =>
    simp only [goStep] at hstep
    cases first with
    | none =>
      simp only [Option.some.injEq, Prod.mk.injEq] at hstep
      obtain ⟨rfl, rfl⟩ := hstep
      exact growsTo_refl c
    | some v =>
      cases hsub : rec (.valueQ v) c with
      | none => simp [hsub, bindSchema] at hstep
      | some r =>
        obtain ⟨ans, c2⟩ := r
        cases ans with
        | props ps => simp [hsub, bindSchema] at hstep
        | schema s =>
          simp only [hsub, bindSchema, Option.some.injEq, Prod.mk.injEq] at hstep
          obtain ⟨rfl, rfl⟩ := hstep
          exact hrec _ _ _ _ hsub

/-- Any successful engine run only extends the cache. -/
theorem go_grows (env : TypeEnv) :
    ∀ n q c a c', go env n q c = some (a, c') → growsTo c c' := by
  intro n
  induction n with
  | zero => intro q c a c' h; rw [go_zero] at h; cases h
  | succ n ih =>
    intro q c a c' h
    rw [go_succ] at h
    exact goStep_grows ih q c a c' h

/-- Number of graph nodes not yet cached: the quantity that shrinks when
`getTypeSchema` inserts its provisional entry before recursing. -/
def uncached (env : TypeEnv) (c : Cache) : Nat :=
  ((List.range env.univ.length).filter (fun i => (alookup i c).isNone)).length

theorem filter_length_mono {α : Type} (l : List α) (p q : α → Bool)
    (h : ∀ x, q x = true → p x = true) :
    (l.filter q).length ≤ (l.filter p).length := by
  induction l with
  | nil => simp
  | cons a t ih =>
    by_cases hq : q a = true
    · have hp := h a hq
      simp [List.filter_cons, hq, hp]
      omega
    · by_cases hp : p a = true
      · simp [List.filter_cons, hq, hp]
        omega
      · simp [List.filter_cons, hq, hp]
        exact ih

theorem filter_length_lt {α : Type} (l : List α) (p q : α → Bool)
    (h : ∀ x, q x = true → p x = true) (x : α) (hx : x ∈ l)
    (hpx : p x = true) (hqx : ¬ q x = true) :
    (l.filter q).length < (l.filter p).length := by
  induction l with
  | nil => cases hx
  | cons a t ih =>
    rcases List.mem_cons.mp hx with rfl | hxt
    · simp [List.filter_cons, hqx, hpx]
      have := filter_length_mono t p q h
      omega
    · by_cases hq : q a = true
      · have hp := h a hq
        simp [List.filter_cons, hq, hp]
        have := ih hxt
        omega
      · by_cases hp : p a = true
        · simp [List.filter_cons, hq, hp]
          have := ih hxt
          omega
        · simp [List.filter_cons, hq, hp]
          exact ih hxt

/-- Cache extension can only shrink the number of uncached nodes. -/
theorem uncached_le_of_growsTo (env : TypeEnv) {c c' : Cache} (h : growsTo c c') :
    uncached env c' ≤ uncached env c := by
  apply filter_length_mono
  intro i hi
  cases hc : alookup i c with
  | none => rfl
  | some v =>
    exfalso
    have hs := h i (by rw [hc]; rfl)
    rw [Option.isNone_iff_eq_none] at hi
    rw [hi] at hs
    simp at hs

/-- Caching an in-range uncached node strictly shrinks the measure. -/
theorem uncached_insert_lt (env : TypeEnv) {c : Cache} {id : Nat}
    (hid : id < env.univ.length) (hc : alookup id c = none) (s : SchemaObject) :
    uncached env (assocSet c id s) < uncached env c := by
  refine filter_length_lt _ _ _ (fun i hi => ?_) id (List.mem_range.mpr hid)
    (by rw [hc]; rfl) (by rw [alookup_assocSet_self]; simp)
  cases hci : alookup i c with
  | none => rfl
  | some v =>
    exfalso
    have hs := alookup_isSome_assocSet c id i s (by rw [hci]; rfl)
    rw [Option.isNone_iff_eq_none] at hi
    rw [hi] at hs
    simp at hs

/-- Which answer shape each query kind produces. -/
def answerShaped : Query → Answer → Prop
  | .metaPropsQ _ _, a => ∃ ps, a = Answer.props ps
  | .instPropsQ _ _, a => ∃ ps, a = Answer.props ps
  | .objPropsQ _ _, a => ∃ ps, a = Answer.props ps
  | _, a => ∃ s, a = Answer.schema s

/-- Totality of the schema-inference engine: from any cache, every query
succeeds with enough fuel.  The induction is on the number of uncached
graph nodes: `getTypeSchema` inserts the provisional `{type:'object'}`
entry before recursing, so every nested call sees strictly fewer
uncached nodes, which is exactly the cycle-breaking argument of the
source. -/
theorem go_total (env : TypeEnv) :
    ∀ n c, uncached env c ≤ n → ∀ q,
      ∃ f a c', go env f q c = some (a, c') ∧ answerShaped q a := by
  intro n
  induction n using Nat.strong_induction_on with
  | _ n IH =>
  have htype : ∀ c, uncached env c ≤ n → ∀ id,
      ∃ f s c', go env f (.typeQ id) c = some (.schema s, c') := by
    intro c hc id
    cases hl : alookup id c with
    | some s => exact ⟨1, s, c, by simp [go_succ, goStep, hl]⟩
    | none =>
      cases hg : env.univ[id]? with
      | none => exact ⟨1, objectSchema, assocSet c id objectSchema, by simp [go_succ, goStep, hl, hg]⟩
      | some d =>
        have hid : id < env.univ.length := by
          by_contra hlen
          rw [List.getElem?_eq_none (Nat.le_of_not_lt hlen)] at hg
          cases hg
        have hlt : uncached env (assocSet c id objectSchema) < n :=
          Nat.lt_of_lt_of_le (uncached_insert_lt env hid hl objectSchema) hc
        cases d with
        | nullT =>
          exact ⟨1, objectSchema, assocSet c id objectSchema, by simp [go_succ, goStep, hl, hg]⟩
        | stringT =>
          exact ⟨1, stringSchema, assocSet (assocSet c id objectSchema) id stringSchema,
            by simp [go_succ, goStep, hl, hg]⟩
        | numberT =>
          exact ⟨1, numberSchema, assocSet (assocSet c id objectSchema) id numberSchema,
            by simp [go_succ, goStep, hl, hg]⟩
        | booleanT =>
          exact ⟨1, booleanSchema, assocSet (assocSet c id objectSchema) id booleanSchema,
            by simp [go_succ, goStep, hl, hg]⟩
        | dateT =>
          exact ⟨1, dateTimeSchema, assocSet (assocSet c id objectSchema) id dateTimeSchema,
            by simp [go_succ, goStep, hl, hg]⟩
        | bufferT =>
          exact ⟨1, binarySchema, assocSet (assocSet c id objectSchema) id binarySchema,
            by simp [go_succ, goStep, hl, hg]⟩
        | objectT =>
          exact ⟨1, objectSchema, assocSet (assocSet c id objectSchema) id objectSchema,
            by simp [go_succ, goStep, hl, hg]⟩
        | arrayT ts =>
          obtain ⟨f, a, c2, hrun, hsh⟩ :=
            IH _ hlt (assocSet c id objectSchema) le_rfl (.arrayTypeQ ts)
          obtain ⟨s, rfl⟩ := hsh
          exact ⟨f + 1, s, assocSet c2 id s, by simp [go_succ, goStep, hl, hg, hrun, bindSchema]⟩
        | funcT nm hp dp cp inst sp fp =>
          obtain ⟨f, a, c2, hrun, hsh⟩ :=
            IH _ hlt (assocSet c id objectSchema) le_rfl (.functionTypeQ nm hp dp cp inst sp fp)
          obtain ⟨s, rfl⟩ := hsh
          exact ⟨f + 1, s, assocSet c2 id s, by simp [go_succ, goStep, hl, hg, hrun, bindSchema]⟩
        | objInst vals =>
          obtain ⟨f, a, c2, hrun, hsh⟩ :=
            IH _ hlt (assocSet c id objectSchema) le_rfl (.objInstQ vals)
          obtain ⟨s, rfl⟩ := hsh
          exact ⟨f + 1, s, assocSet c2 id s, by simp [go_succ, goStep, hl, hg, hrun, bindSchema]⟩
  have hgrow : ∀ f q c a c', go env f q c = some (a, c') → uncached env c' ≤ uncached env c :=
    fun f q c a c' h => uncached_le_of_growsTo env (go_grows env f q c a c' h)
  have hname : ∀ c, uncached env c ≤ n → ∀ nm,
      ∃ f s c', go env f (.typeNameQ nm) c = some (.schema s, c') := by
    intro c hc nm
    by_cases h1 : nm = "string" ∨ nm = "String"
    · exact ⟨1, stringSchema, c, by simp [go_succ, goStep, h1]⟩
    · by_cases h2 : nm = "number" ∨ nm = "Number"
      · exact ⟨1, numberSchema, c, by simp [go_succ, goStep, h1, h2]⟩
      · by_cases h3 : nm = "boolean" ∨ nm = "Boolean"
        · exact ⟨1, booleanSchema, c, by simp [go_succ, goStep, h1, h2, h3]⟩
        · by_cases h4 : nm = "Date"
          · exact ⟨1, dateTimeSchema, c, by simp [go_succ, goStep, h1, h2, h3, h4]⟩
          · cases hg : env.glb nm with
            | some gid =>
              obtain ⟨f, s, c', hrun⟩ := htype c hc gid
              exact ⟨f + 1, s, c', by simp [go_succ, goStep, h1, h2, h3, h4, hg, hrun]⟩
            | none =>
              exact ⟨1, objectSchema, c, by simp [go_succ, goStep, h1, h2, h3, h4, hg]⟩
  have harr : ∀ c, uncached env c ≤ n → ∀ ts,
      ∃ f s c', go env f (.arrayTypeQ ts) c = some (.schema s, c') := by
    intro c hc ts
    cases hm : matchArrayGeneric ts with
    | none => exact ⟨1, arraySchema objectSchema, c, by simp [go_succ, goStep, hm]⟩
    | some nm =>
      obtain ⟨f, it, c', hrun⟩ := hname c hc nm.trim
      exact ⟨f + 1, arraySchema it, c', by simp [go_succ, goStep, hm, hrun, bindSchema]⟩
  have hvalue : ∀ k (v : ValueDesc), sizeOf v ≤ k → ∀ c, uncached env c ≤ n →
      ∃ f s c', go env f (.valueQ v) c = some (.schema s, c') := by
    intro k
    induction k with
    | zero =>
      intro v hv
      exfalso
      cases v <;> simp_arith at hv
    | succ k ihk =>
      intro v hv c hc
      cases v with
      | vNull => exact ⟨1, objectSchema, c, by simp [go_succ, goStep]⟩
      | vString => exact ⟨1, stringSchema, c, by simp [go_succ, goStep]⟩
      | vNumber => exact ⟨1, numberSchema, c, by simp [go_succ, goStep]⟩
      | vBool => exact ⟨1, booleanSchema, c, by simp [go_succ, goStep]⟩
      | vDate => exact ⟨1, dateTimeSchema, c, by simp [go_succ, goStep]⟩
      | vOther => exact ⟨1, objectSchema, c, by simp [go_succ, goStep]⟩
      | vObject ctorId =>
        obtain ⟨f, s, c', hrun⟩ := htype c hc ctorId
        exact ⟨f + 1, s, c', by simp [go_succ, goStep, hrun]⟩
      | vArray first =>
        cases first with
        | none => exact ⟨1 + 1, arraySchema objectSchema, c, by simp [go_succ, goStep]⟩
        | some w =>
          have hw : sizeOf w ≤ k := by
            simp_arith at hv
            omega
          obtain ⟨f, s, c', hrun⟩ := ihk w hw c hc
          exact ⟨f + 1 + 1, arraySchema s, c', by simp [go_succ, goStep, hrun, bindSchema]⟩
  have hmeta : ∀ (props : List (String × Nat)) (acc : List (String × SchemaObject)) c,
      uncached env c ≤ n →
      ∃ f ps c', go env f (.metaPropsQ props acc) c = some (.props ps, c') := by
    intro props
    induction props with
    | nil => intro acc c hc; exact ⟨1, acc, c, by simp [go_succ, goStep]⟩
    | cons hd rest ih =>
      obtain ⟨k, tid⟩ := hd
      intro acc c hc
      obtain ⟨f1, s, c1, hrun1⟩ := htype c hc tid
      have hc1 : uncached env c1 ≤ n := le_trans (hgrow _ _ _ _ _ hrun1) hc
      obtain ⟨f2, ps, c2, hrun2⟩ := ih (assocSet acc k s) c1 hc1
      have hrun1x := go_mono_le env (Nat.le_max_left f1 f2) _ _ _ hrun1
      have hrun2x := go_mono_le env (Nat.le_max_right f1 f2) _ _ _ hrun2
      exact ⟨max f1 f2 + 1, ps, c2, by simp [go_succ, goStep, hrun1x, hrun2x, bindSchema]⟩
  have hinst : ∀ (vals : List (String × ValueDesc)) (acc : List (String × SchemaObject)) c,
      uncached env c ≤ n →
      ∃ f ps c', go env f (.instPropsQ vals acc) c = some (.props ps, c') := by
    intro vals
    induction vals with
    | nil => intro acc c hc; exact ⟨1, acc, c, by simp [go_succ, goStep]⟩
    | cons hd rest ih =>
      obtain ⟨k, v⟩ := hd
      intro acc c hc
      by_cases hk : k ≠ "constructor" ∧ ¬ startsWithChar k '_'
      · obtain ⟨f1, s, c1, hrun1⟩ := hvalue (sizeOf v) v le_rfl c hc
        have hc1 : uncached env c1 ≤ n := le_trans (hgrow _ _ _ _ _ hrun1) hc
        obtain ⟨f2, ps, c2, hrun2⟩ := ih (assocSet acc k s) c1 hc1
        have hrun1x := go_mono_le env (Nat.le_max_left f1 f2) _ _ _ hrun1
        have hrun2x := go_mono_le env (Nat.le_max_right f1 f2) _ _ _ hrun2
        refine ⟨max f1 f2 + 1, ps, c2, ?_⟩
        simp only [go_succ, goStep]
        rw [if_pos hk]
        simp [hrun1x, hrun2x, bindSchema]
      · obtain ⟨f, ps, c', hrun⟩ := ih acc c hc
        refine ⟨f + 1, ps, c', ?_⟩
        simp only [go_succ, goStep]
        rw [if_neg hk]
        exact hrun
  have hobjfold : ∀ (vals : List (String × ValueDesc)) (acc : List (String × SchemaObject)) c,
      uncached env c ≤ n →
      ∃ f ps c', go env f (.objPropsQ vals acc) c = some (.props ps, c') := by
    intro vals
    induction vals with
    | nil => intro acc c hc; exact ⟨1, acc, c, by simp [go_succ, goStep]⟩
    | cons hd rest ih =>
      obtain ⟨k, v⟩ := hd
      intro acc c hc
      obtain ⟨f1, s, c1, hrun1⟩ := hvalue (sizeOf v) v le_rfl c hc
      have hc1 : uncached env c1 ≤ n := le_trans (hgrow _ _ _ _ _ hrun1) hc
      obtain ⟨f2, ps, c2, hrun2⟩ := ih (assocSet acc k s) c1 hc1
      have hrun1x := go_mono_le env (Nat.le_max_left f1 f2) _ _ _ hrun1
      have hrun2x := go_mono_le env (Nat.le_max_right f1 f2) _ _ _ hrun2
      exact ⟨max f1 f2 + 1, ps, c2, by simp [go_succ, goStep, hrun1x, hrun2x, bindSchema]⟩
  have hobjinst : ∀ (vals : List (String × ValueDesc)) c, uncached env c ≤ n →
      ∃ f s c', go env f (.objInstQ vals) c = some (.schema s, c') := by
    intro vals c hc
    obtain ⟨f, ps, c', hrun⟩ := hobjfold vals [] c hc
    exact ⟨f + 1, propsSchema ps, c', by simp [go_succ, goStep, hrun, bindProps]⟩
  have hfunc : ∀ nm hp dp cp inst sp fp c, uncached env c ≤ n →
      ∃ f s c', go env f (.functionTypeQ nm hp dp cp inst sp fp) c = some (.schema s, c') := by
    intro nm hp dp cp inst sp fp c hc
    cases hp with
    | false =>
      exact ⟨1, finishFunctionType nm (functionSignatureProps fp), c, by simp [go_succ, goStep]⟩
    | true =>
      obtain ⟨f1, ps, c1, hrun1⟩ := hmeta (dp ++ cp) [] c hc
      have hc1 : uncached env c1 ≤ n := le_trans (hgrow _ _ _ _ _ hrun1) hc
      by_cases hps : ps.isEmpty
      · cases inst with
        | none =>
          exact ⟨f1 + 1, finishFunctionType nm (sourceScanProps sp), c1,
            by simp [go_succ, goStep, hrun1, bindProps, hps]⟩
        | some vals =>
          obtain ⟨f2, ps2, c2, hrun2⟩ := hinst vals [] c1 hc1
          have hrun1x := go_mono_le env (Nat.le_max_left f1 f2) _ _ _ hrun1
          have hrun2x := go_mono_le env (Nat.le_max_right f1 f2) _ _ _ hrun2
          exact ⟨max f1 f2 + 1, finishFunctionType nm ps2, c2,
            by simp [go_succ, goStep, hrun1x, hrun2x, bindProps, hps]⟩
      · exact ⟨f1 + 1, finishFunctionType nm ps, c1,
          by simp [go_succ, goStep, hrun1, bindProps, hps]⟩
  have harrval : ∀ (first : Option ValueDesc) c, uncached env c ≤ n →
      ∃ f s c', go env f (.arrayValueQ first) c = some (.schema s, c') := by
    intro first c hc
    cases first with
    | none => exact ⟨1, arraySchema objectSchema, c, by simp [go_succ, goStep]⟩
    | some v =>
      obtain ⟨f, s, c', hrun⟩ := hvalue (sizeOf v) v le_rfl c hc
      exact ⟨f + 1, arraySchema s, c', by simp [go_succ, goStep, hrun, bindSchema]⟩
  intro c hc q
  cases q with
  | typeQ tid =>
    obtain ⟨f, s, c', h⟩ := htype c hc tid
    exact ⟨f, .schema s, c', h, s, rfl⟩
  | arrayTypeQ ts =>
    obtain ⟨f, s, c', h⟩ := harr c hc ts
    exact ⟨f, .schema s, c', h, s, rfl⟩
  | typeNameQ nm =>
    obtain ⟨f, s, c', h⟩ := hname c hc nm
    exact ⟨f, .schema s, c', h, s, rfl⟩
  | functionTypeQ nm hp dp cp inst sp fp =>
    obtain ⟨f, s, c', h⟩ := hfunc nm hp dp cp inst sp fp c hc
    exact ⟨f, .schema s, c', h, s, rfl⟩
  | metaPropsQ props acc =>
    obtain ⟨f, ps, c', h⟩ := hmeta props acc c hc
    exact ⟨f, .props ps, c', h, ps, rfl⟩
  | instPropsQ vals acc =>
    obtain ⟨f, ps, c', h⟩ := hinst vals acc c hc
    exact ⟨f, .props ps, c', h, ps, rfl⟩
  | objPropsQ vals acc =>
    obtain ⟨f, ps, c', h⟩ := hobjfold vals acc c hc
    exact ⟨f, .props ps, c', h, ps, rfl⟩
  | objInstQ vals =>
    obtain ⟨f, s, c', h⟩ := hobjinst vals c hc
    exact ⟨f, .schema s, c', h, s, rfl⟩
  | valueQ v =>
    obtain ⟨f, s, c', h⟩ := hvalue (sizeOf v) v le_rfl c hc
    exact ⟨f, .schema s, c', h, s, rfl⟩
  | arrayValueQ first =>
    obtain ⟨f, s, c', h⟩ := harrval first c hc
    exact ⟨f, .schema s, c', h, s, rfl⟩

/-- C5: for every type-descriptor graph and every descriptor in it —
including self-referential/cyclic ones — `getTypeSchema` terminates:
some fuel yields a result (necessarily a finite `SchemaObject`, the type
being inductive) and the result is stable under any larger fuel, because
the provisional `{type:'object'}` node cached before recursing makes
every nested call see strictly fewer uncached descriptors.  The second
conjunct runs the engine on a node whose metadata property refers back
to the node itself and shows the cyclic reference resolving to the
provisional object node. -/
theorem c5_schema_inference_terminates :
    (∀ (env : TypeEnv) (id : Nat),
      ∃ fuel s c', getTypeSchema env fuel id [] = some (s, c') ∧
        ∀ fuel', fuel ≤ fuel' → getTypeSchema env fuel' id [] = some (s, c')) ∧
    getTypeSchema ⟨[.funcT "Node" true [("next", 0)] [] none [] []], fun _ => none⟩ 4 0 [] =
      some (propsSchema [("next", objectSchema)],
        [(0, propsSchema [("next", objectSchema)])]) := by
  constructor
  · intro env id
    obtain ⟨f, a, c', hrun, hsh⟩ := go_total env (uncached env []) [] le_rfl (.typeQ id)
    obtain ⟨s, rfl⟩ := hsh
    refine ⟨f, s, c', ?_, ?_⟩
    · simp [getTypeSchema, hrun]
    · intro fuel' hf
      have hrun' := go_mono_le env hf _ _ _ hrun
      simp [getTypeSchema, hrun']
  · rfl

/-- C9: `getTypeSchema` sends the String descriptor to `{type:'string'}`,
the Date descriptor to `{type:'string', format:'date-time'}`, and an
array descriptor whose `Array<...>` generic pattern does not match (no
recoverable element type) to `{type:'array', items:{type:'object'}}`. -/
theorem c9_primitive_and_array_schemas (env : TypeEnv) (fuel : Nat) (id : Nat) (cache : Cache)
    (hcache : alookup id cache = none) :
    (env.univ[id]? = some .stringT → 1 ≤ fuel →
      getTypeSchema env fuel id cache =
        some (stringSchema, assocSet (assocSet cache id objectSchema) id stringSchema)) ∧
    (env.univ[id]? = some .dateT → 1 ≤ fuel →
      getTypeSchema env fuel id cache =
        some (dateTimeSchema, assocSet (assocSet cache id objectSchema) id dateTimeSchema)) ∧
    (∀ ts, env.univ[id]? = some (.arrayT ts) → matchArrayGeneric ts = none → 2 ≤ fuel →
      getTypeSchema env fuel id cache =
        some (arraySchema objectSchema,
          assocSet (assocSet cache id objectSchema) id (arraySchema objectSchema))) := by
  refine ⟨?_, ?_, ?_⟩
  · intro hg hf
    rcases fuel with _ | f
    · omega
    · simp [getTypeSchema, go_succ, goStep, hcache, hg]
  · intro hg hf
    rcases fuel with _ | f
    · omega
    · simp [getTypeSchema, go_succ, goStep, hcache, hg]
  · intro ts hg hm hf
    rcases fuel with _ | _ | f
    · omega
    · omega
    · simp [getTypeSchema, go_succ, goStep, hcache, hg, hm, bindSchema]

/-- Concrete graph used to exercise the C9 branches. -/
def env9 : TypeEnv :=
  ⟨[.stringT, .dateT, .arrayT "function Array() native code"], fun _ => none⟩

/-- Witness for C9: evaluating the engine on a concrete graph holding a
String node, a Date node and an Array node with no recoverable element
type. -/
theorem c9_primitive_and_array_schemas_witness :
    getTypeSchema env9 2 0 [] = some (stringSchema, [(0, stringSchema)]) ∧
    getTypeSchema env9 2 1 [] = some (dateTimeSchema, [(1, dateTimeSchema)]) ∧
    getTypeSchema env9 2 2 [] = some (arraySchema objectSchema, [(2, arraySchema objectSchema)]) :=
  ⟨(c9_primitive_and_array_schemas env9 2 0 [] rfl).1 rfl (by omega),
   (c9_primitive_and_array_schemas env9 2 1 [] rfl).2.1 rfl (by omega),
   (c9_primitive_and_array_schemas env9 2 2 [] rfl).2.2
     "function Array() native code" rfl rfl (by omega)⟩

/-- C6: the engine never lets a failure escape.  First conjunct: a
constructor whose instantiation throws (`instantiation = none`) and
which has no property metadata still yields a schema — the catch falls
back to the constructor-source scan (`sourceScanProps`), or to the named
`{type:'object', description: ...}` fallback when that finds nothing.
Second conjunct: unrecognized or null runtime values degrade to the
opaque `{type:'object'}` schema. -/
theorem c6_inference_never_raises (env : TypeEnv) (fuel : Nat) (cache : Cache) :
    (∀ id name sp fp, env.univ[id]? = some (.funcT name true [] [] none sp fp) →
      alookup id cache = none → 3 ≤ fuel →
      getTypeSchema env fuel id cache =
        some (finishFunctionType name (sourceScanProps sp),
          assocSet (assocSet cache id objectSchema) id
            (finishFunctionType name (sourceScanProps sp)))) ∧
    (1 ≤ fuel →
      inferSchemaFromValue env fuel .vOther cache = some (objectSchema, cache) ∧
      inferSchemaFromValue env fuel .vNull cache = some (objectSchema, cache)) := by
  constructor
  · intro id name sp fp hg hcache hf
    rcases fuel with _ | _ | _ | f
    · omega
    · omega
    · omega
    · simp [getTypeSchema, go_succ, goStep, hcache, hg, bindSchema, bindProps]
  · intro hf
    rcases fuel with _ | f
    · omega
    · exact ⟨by simp [inferSchemaFromValue, go_succ, goStep],
        by simp [inferSchemaFromValue, go_succ, goStep]⟩

/-- Concrete graph used to exercise the C6 fallbacks: a constructor with
no metadata whose instantiation throws and whose source scan finds two
assigned properties. -/
def env6 : TypeEnv :=
  ⟨[.funcT "Broken" true [] [] none ["a", "b"] []], fun _ => none⟩

/-- Witness for C6 at a concrete failing constructor and an
unrecognized value. -/
theorem c6_inference_never_raises_witness :
    getTypeSchema env6 3 0 [] =
      some (propsSchema [("a", objectSchema), ("b", objectSchema)],
        [(0, propsSchema [("a", objectSchema), ("b", objectSchema)])]) ∧
    inferSchemaFromValue env6 1 .vOther [] = some (objectSchema, []) :=
  ⟨(c6_inference_never_raises env6 3 []).1 0 "Broken" ["a", "b"] [] rfl rfl (by omega),
   ((c6_inference_never_raises env6 1 []).2 (by omega)).1⟩

/-- ControllerMetadata (src/types.ts). -/
structure ControllerMetadata where
  path : String
  description : Option String
  tags : Option (List String)
deriving Repr

/-- ParameterMetadata (src/types.ts); the source field `in` is a Lean
keyword and is embedded as `paramIn`. -/
structure ParameterMetadata where
  name : String
  paramIn : String
  required : Option Bool
  type : String
  description : Option String
  schema : Option SchemaObject
deriving Repr

/-- One entry of ResponseMetadata (src/types.ts): a description plus an
optional content map from media type to schema. -/
structure ResponseObject where
  description : String
  content : Option (List (String × SchemaObject))
deriving Repr

/-- RouteMetadata (src/types.ts).  `responses` distinguishes an absent
field (`none`, JavaScript `undefined`) from a present — possibly empty —
object (`some`), which decides the `route.responses || default`
fallback in the generator. -/
structure RouteMetadata where
  path : String
  method : String
  handlerName : String
  description : Option String
  summary : Option String
  tags : Option (List String)
  parameters : Option (List ParameterMetadata)
  responses : Option (List (String × ResponseObject))
deriving Repr

/-- OpenAPIMetadata (src/types.ts); controller-class identity becomes a
natural number. -/
structure OpenAPIMetadata where
  controllers : List (Nat × ControllerMetadata)
  routes : List (Nat × List RouteMetadata)
deriving Repr

structure ServerObject where
  url : String
  description : Option String
deriving Repr

/-- OpenAPIOptions (src/openapi.ts). -/
structure OpenAPIOptions where
  title : String
  version : String
  description : Option String
  base : Option String
  servers : Option (List ServerObject)
deriving Repr

structure InfoObject where
  title : String
  version : String
  description : Option String
deriving Repr

/-- The requestBody object emitted for the first body parameter. -/
structure RequestBodyObject where
  description : String
  required : Bool
  content : List (String × SchemaObject)
deriving Repr

/-- One operation object of the generated document (the `routeSpec`
record built inside `generateOpenAPISpec`). -/
structure RouteSpec where
  summary : Option String
  description : Option String
  tags : List String
  responses : List (String × ResponseObject)
  parameters : Option (List ParameterMetadata)
  requestBody : Option RequestBodyObject
deriving Repr

/-- The generated OpenAPI document.  `components.schemas` is always the
empty object in the source and is not modelled. -/
structure OpenAPISpec where
  openapi : String
  info : InfoObject
  servers : List ServerObject
  paths : List (String × List (String × RouteSpec))
deriving Repr

/-- JavaScript `a || b` for an optional string: `undefined` and the
empty string are both falsy. -/
def jsOrString (v : Option String) (dflt : String) : String :=
  match v with
  | some s => if s = "" then dflt else s
  | none => dflt

/-- The `path.startsWith('/') ? path : '/' + path` normalization used by
`Controller`, `generateOpenAPISpec` and `registerControllers`. -/
def ensureLeadingSlash (p : String) : String :=
  if startsWithChar p '/' then p else "/" ++ p

/-- Models `.replace(/\/+/g, '/')`; the flag records whether the last
kept character was a slash. -/
def collapseSlashesAux : List Char → Bool → List Char
  | [], _ => []
  | c :: rest, prevSlash =>
    if c = '/' then
      if prevSlash then collapseSlashesAux rest true
      else '/' :: collapseSlashesAux rest true
    else c :: collapseSlashesAux rest false

/-- Collapse every run of repeated '/' to a single '/'. -/
def collapseSlashes (s : String) : String := ⟨collapseSlashesAux s.data false⟩

/-- Default responses `{'200': {description: 'Successful response'}}`. -/
def defaultResponses : List (String × ResponseObject) :=
  [("200", ⟨"Successful response", none⟩)]

/-- The operation object built for one route (src/openapi.ts lines
89-123): default responses only when the route's responses field is
absent, controller tags before route tags, and the body/non-body split
where the first body parameter becomes `requestBody`. -/
def buildRouteSpec (cm : ControllerMetadata) (route : RouteMetadata) : RouteSpec :=
  let base : RouteSpec :=
    { summary := route.summary
      description := route.description
      tags := cm.tags.getD [] ++ route.tags.getD []
      responses := route.responses.getD defaultResponses
      parameters := none
      requestBody := none }
  match route.parameters with
  | none => base
  | some params =>
    if params.length > 0 then
      let bodyParams := params.filter (fun p => p.paramIn = "body")
      let otherParams := params.filter (fun p => p.paramIn ≠ "body")
      let withParams :=
        if otherParams.length > 0 then { base with parameters := some otherParams } else base
      match bodyParams with
      | [] => withParams
      | bp :: _ =>
        { withParams with
            requestBody := some
              { description := jsOrString bp.description "Request body"
                required := bp.required != some false
                content := [("application/json", bp.schema.getD objectSchema)] } }
    else base

/-- Models `if (!spec.paths[fullPath]) spec.paths[fullPath] = thing;
spec.paths[fullPath][route.method] = routeSpec`. -/
def setPathMethod (paths : List (String × List (String × RouteSpec)))
    (fullPath method : String) (rs : RouteSpec) : List (String × List (String × RouteSpec)) :=
  assocSet paths fullPath (assocSet ((alookup fullPath paths).getD []) method rs)

/-- One iteration of the route loop in `generateOpenAPISpec`: route-path
normalization, composition of the full path with collapsed slashes (a
bare '/' route path contributes nothing), and placement of the
operation object under path key and method. -/
def addRouteToSpec (basePref : String) (cm : ControllerMetadata)
    (spec : OpenAPISpec) (route : RouteMetadata) : OpenAPISpec :=
  let routePath := ensureLeadingSlash route.path
  let fullPath :=
    collapseSlashes (basePref ++ ensureLeadingSlash cm.path ++
      (if routePath = "/" then "" else routePath))
  { spec with paths := setPathMethod spec.paths fullPath route.method (buildRouteSpec cm route) }

/-- One iteration of the controller loop in `generateOpenAPISpec`. -/
def addControllerToSpec (options : OpenAPIOptions) (mdRoutes : List (Nat × List RouteMetadata))
    (spec : OpenAPISpec) (entry : Nat × ControllerMetadata) : OpenAPISpec :=
  let routes := (alookup entry.1 mdRoutes).getD []
  routes.foldl (addRouteToSpec (jsOrString options.base "") entry.2) spec

/-- Embedding of `generateOpenAPISpec` (src/openapi.ts). -/
def generateOpenAPISpec (options : OpenAPIOptions) (metadata : OpenAPIMetadata) : OpenAPISpec :=
  let spec : OpenAPISpec :=
    { openapi := "3.0.0"
      info := ⟨options.title, options.version, options.description⟩
      servers := options.servers.getD [⟨"/", none⟩]
      paths := [] }
  metadata.controllers.foldl (addControllerToSpec options metadata.routes) spec

/-- The singleton metadata container (src/metadata.ts). -/
structure MetadataStorage where
  metadata : OpenAPIMetadata
deriving Repr

/-- `MetadataStorage.getMetadata` returns the stored metadata object. -/
def getMetadata (storage : MetadataStorage) : OpenAPIMetadata := storage.metadata

/-- `generateOpenAPISpec` run against the store, with the store state
passed through explicitly.  The source function contains no write to the
store — its only access is the read `getMetadata()` — so the embedding
returns the store unchanged. -/
def generateOpenAPISpecStore (options : OpenAPIOptions) (storage : MetadataStorage) :
    OpenAPISpec × MetadataStorage :=
  (generateOpenAPISpec options (getMetadata storage), storage)

/-- C10: building the document leaves the metadata store untouched — the
controllers map and every route list are unchanged — and the document is
a function of the store only through `getMetadata`. -/
theorem c10_generate_spec_preserves_store (options : OpenAPIOptions) (storage : MetadataStorage) :
    (generateOpenAPISpecStore options storage).2 = storage ∧
    (getMetadata (generateOpenAPISpecStore options storage).2).controllers =
      (getMetadata storage).controllers ∧
    (getMetadata (generateOpenAPISpecStore options storage).2).routes =
      (getMetadata storage).routes ∧
    (generateOpenAPISpecStore options storage).1 =
      generateOpenAPISpec options (getMetadata storage) :=
  ⟨rfl, rfl, rfl, rfl⟩

/-- Invariant preservation along a fold. -/
theorem foldl_preserve {α β : Type} (f : β → α → β) (P : β → Prop)
    (hf : ∀ b a, P b → P (f b a)) : ∀ (l : List α) (b : β), P b → P (l.foldl f b) := by
  intro l
  induction l with
  | nil => exact fun b hb => hb
  | cons a t ih => exact fun b hb => ih (f b a) (hf b a hb)

/-- A property established by one element of the fold and preserved by
every step holds of the fold's result. -/
theorem foldl_establish {α β : Type} (f : β → α → β) (P : β → Prop)
    (hf : ∀ b a, P b → P (f b a)) (x : α) :
    ∀ (l : List α), x ∈ l → (∀ b, P (f b x)) → ∀ b, P (l.foldl f b) := by
  intro l
  induction l with
  | nil => intro hx; cases hx
  | cons a t ih =>
    intro hx hest b
    rcases List.mem_cons.mp hx with rfl | hxt
    · exact foldl_preserve f P hf t (f b x) (hest b)
    · exact ih hxt hest (f b a)

/-- A path key is present in the document and carries the given method. -/
def methodPresent (paths : List (String × List (String × RouteSpec))) (k m : String) : Prop :=
  ∃ ms, alookup k paths = some ms ∧ (alookup m ms).isSome

theorem methodPresent_setPathMethod_self
    (paths : List (String × List (String × RouteSpec))) (k m : String) (rs : RouteSpec) :
    methodPresent (setPathMethod paths k m rs) k m := by
  simp only [setPathMethod]
  refine ⟨assocSet ((alookup k paths).getD []) m rs, ?_, ?_⟩
  · exact alookup_assocSet_self paths k _
  · rw [alookup_assocSet_self]; rfl

theorem methodPresent_setPathMethod_mono
    (paths : List (String × List (String × RouteSpec))) (k m k' m' : String) (rs : RouteSpec)
    (h : methodPresent paths k m) : methodPresent (setPathMethod paths k' m' rs) k m := by
  obtain ⟨ms, hk, hm⟩ := h
  simp only [setPathMethod]
  by_cases hkk : k = k'
  · subst hkk
    have hentry : (alookup k paths).getD [] = ms := by rw [hk]; rfl
    refine ⟨assocSet ms m' rs, ?_, ?_⟩
    · rw [← hentry]; exact alookup_assocSet_self _ _ _
    · by_cases hm2 : m = m'
      · subst hm2; rw [alookup_assocSet_self]; rfl
      · rw [alookup_assocSet_ne ms rs hm2]; exact hm
  · exact ⟨ms, by rw [alookup_assocSet_ne paths _ hkk]; exact hk, hm⟩

/-- C1: every route of every registered controller is emitted under the
path key `options.base ++ basePath ++ routePath` with every run of
repeated '/' collapsed to one, where basePath and routePath are the
slash-normalized controller and route paths and a route path equal to
'/' contributes no additional segment. -/
theorem c1_path_composition (options : OpenAPIOptions) (md : OpenAPIMetadata)
    (cid : Nat) (cm : ControllerMetadata) (route : RouteMetadata)
    (hc : (cid, cm) ∈ md.controllers)
    (hr : route ∈ (alookup cid md.routes).getD []) :
    methodPresent (generateOpenAPISpec options md).paths
      (collapseSlashes (jsOrString options.base "" ++ ensureLeadingSlash cm.path ++
        (if ensureLeadingSlash route.path = "/" then "" else ensureLeadingSlash route.path)))
      route.method := by
  set K := collapseSlashes (jsOrString options.base "" ++ ensureLeadingSlash cm.path ++
    (if ensureLeadingSlash route.path = "/" then "" else ensureLeadingSlash route.path)) with hK
  simp only [generateOpenAPISpec]
  have hpresR : ∀ (pref : String) (cmx : ControllerMetadata) (b : OpenAPISpec)
      (r : RouteMetadata), methodPresent b.paths K route.method →
      methodPresent (addRouteToSpec pref cmx b r).paths K route.method := by
    intro pref cmx b r hb
    simp only [addRouteToSpec]
    exact methodPresent_setPathMethod_mono _ _ _ _ _ _ hb
  have hpresC : ∀ (b : OpenAPISpec) (entry : Nat × ControllerMetadata),
      methodPresent b.paths K route.method →
      methodPresent (addControllerToSpec options md.routes b entry).paths K route.method := by
    intro b entry hb
    simp only [addControllerToSpec]
    exact foldl_preserve _ (fun spec => methodPresent spec.paths K route.method)
      (fun b2 r2 hb2 => hpresR _ _ b2 r2 hb2) _ b hb
  have hest : ∀ b : OpenAPISpec,
      methodPresent (addControllerToSpec options md.routes b (cid, cm)).paths K route.method := by
    intro b
    simp only [addControllerToSpec]
    refine foldl_establish _ (fun spec => methodPresent spec.paths K route.method)
      (fun b2 r2 hb2 => hpresR _ _ b2 r2 hb2) route _ hr ?_ b
    intro b2
    simp only [addRouteToSpec]
    exact methodPresent_setPathMethod_self _ _ _ _
  exact foldl_establish _ (fun spec => methodPresent spec.paths K route.method)
    hpresC (cid, cm) md.controllers hc (fun b => hest b) _

/-- Controller and route of the C1 scenario: a controller registered at
path `users` (no leading slash) with a `Get('/')` route. -/
def cmUsers : ControllerMetadata := ⟨"users", none, none⟩

def routeUsersGet : RouteMetadata := ⟨"/", "get", "getUsers", none, none, none, none, none⟩

def mdUsers : OpenAPIMetadata := ⟨[(1, cmUsers)], [(1, [routeUsersGet])]⟩

/-- Witness for C1: the two scenarios of the specification — base `""`
yields path key `/users`, base `"/api/v1"` yields `/api/v1/users`. -/
theorem c1_path_composition_witness :
    methodPresent (generateOpenAPISpec ⟨"T", "1", none, some "", none⟩ mdUsers).paths
      "/users" "get" ∧
    methodPresent (generateOpenAPISpec ⟨"T", "1", none, some "/api/v1", none⟩ mdUsers).paths
      "/api/v1/users" "get" := by
  constructor
  · have h := c1_path_composition ⟨"T", "1", none, some "", none⟩ mdUsers 1 cmUsers routeUsersGet
      (by simp [mdUsers]) (by simp [mdUsers, alookup])
    have hk : collapseSlashes (jsOrString (OpenAPIOptions.mk "T" "1" none (some "") none).base ""
        ++ ensureLeadingSlash cmUsers.path ++
        (if ensureLeadingSlash routeUsersGet.path = "/" then ""
         else ensureLeadingSlash routeUsersGet.path)) = "/users" := by decide
    exact hk ▸ h
  · have h := c1_path_composition ⟨"T", "1", none, some "/api/v1", none⟩ mdUsers 1 cmUsers
      routeUsersGet (by simp [mdUsers]) (by simp [mdUsers, alookup])
    have hk : collapseSlashes
        (jsOrString (OpenAPIOptions.mk "T" "1" none (some "/api/v1") none).base ""
        ++ ensureLeadingSlash cmUsers.path ++
        (if ensureLeadingSlash routeUsersGet.path = "/" then ""
         else ensureLeadingSlash routeUsersGet.path)) = "/api/v1/users" := by decide
    exact hk ▸ h

/-- C2: when a route's declared parameters contain at least one body
parameter, the emitted operation carries no body entries in its
`parameters` array, and exactly the first body parameter becomes the
`requestBody = {description, required, content: {application/json:
{schema}}}` object. -/
theorem c2_body_parameter_not_duplicated (cm : ControllerMetadata) (route : RouteMetadata)
    (params : List ParameterMetadata) (hp : route.parameters = some params)
    (hb : params.filter (fun p => p.paramIn = "body") ≠ []) :
    (∀ p ∈ ((buildRouteSpec cm route).parameters).getD [], p.paramIn ≠ "body") ∧
    ∃ bp, (params.filter (fun p => p.paramIn = "body")).head? = some bp ∧
      (buildRouteSpec cm route).requestBody = some
        { description := jsOrString bp.description "Request body"
          required := bp.required != some false
          content := [("application/json", bp.schema.getD objectSchema)] } := by
  have hlen : params.length > 0 := by
    cases params with
    | nil => simp at hb
    | cons a t => simp
  cases hbp : params.filter (fun p => p.paramIn = "body") with
  | nil => exact absurd hbp hb
  | cons bp rest =>
    have hbuild : buildRouteSpec cm route =
        { summary := route.summary
          description := route.description
          tags := cm.tags.getD [] ++ route.tags.getD []
          responses := route.responses.getD defaultResponses
          parameters :=
            (if (params.filter (fun p => p.paramIn ≠ "body")).length > 0
             then some (params.filter (fun p => p.paramIn ≠ "body")) else none)
          requestBody := some
            { description := jsOrString bp.description "Request body"
              required := bp.required != some false
              content := [("application/json", bp.schema.getD objectSchema)] } } := by
      simp only [buildRouteSpec, hp]
      rw [if_pos hlen]
      simp only [hbp]
      by_cases ho : (params.filter (fun p => p.paramIn ≠ "body")).length > 0
      · rw [if_pos ho, if_pos ho]
      · rw [if_neg ho, if_neg ho]
    constructor
    · intro p hmem
      simp only [hbuild] at hmem
      by_cases ho : (params.filter (fun p => p.paramIn ≠ "body")).length > 0
      · rw [if_pos ho] at hmem
        simp only [Option.getD_some] at hmem
        have := List.of_mem_filter hmem
        simpa using this
      · rw [if_neg ho] at hmem
        simp at hmem
    · exact ⟨bp, rfl, by simp only [hbuild]⟩

/-- Parameters, controller and route of the C2 witness: one query
parameter and two body parameters on one route. -/
def pQuery : ParameterMetadata := ⟨"id", "query", some false, "string", none, none⟩

def pBodyOne : ParameterMetadata := ⟨"body", "body", some true, "object", some "body one", none⟩

def pBodyTwo : ParameterMetadata :=
  ⟨"body", "body", some true, "object", some "body two", some stringSchema⟩

def cmBody : ControllerMetadata := ⟨"/t", none, none⟩

def routeBody : RouteMetadata :=
  ⟨"/", "post", "createUser", none, none, none, some [pQuery, pBodyOne, pBodyTwo], some []⟩

/-- Witness for C2: with two body parameters declared, only the first
becomes the requestBody and the parameters array keeps only the query
parameter. -/
theorem c2_body_parameter_not_duplicated_witness :
    (∀ p ∈ ((buildRouteSpec cmBody routeBody).parameters).getD [], p.paramIn ≠ "body") ∧
    (buildRouteSpec cmBody routeBody).requestBody =
      some ⟨"body one", true, [("application/json", objectSchema)]⟩ := by
  have h := c2_body_parameter_not_duplicated cmBody routeBody [pQuery, pBodyOne, pBodyTwo] rfl
    (by
      rw [show [pQuery, pBodyOne, pBodyTwo].filter (fun p => p.paramIn = "body") =
        [pBodyOne, pBodyTwo] from rfl]
      exact fun hcontra => List.noConfusion hcontra)
  refine ⟨h.1, ?_⟩
  obtain ⟨bp, hbp, hrb⟩ := h.2
  rw [show ([pQuery, pBodyOne, pBodyTwo].filter (fun p => p.paramIn = "body")).head? =
    some pBodyOne from rfl] at hbp
  obtain rfl := Option.some.inj hbp
  exact hrb

/-- Partial<RouteMetadata>: the options object accepted by the method
decorators; each present field overrides the computed route field when
spread last into the registered metadata. -/
structure RoutePartial where
  path : Option String
  method : Option String
  handlerName : Option String
  description : Option String
  summary : Option String
  tags : Option (List String)
  parameters : Option (List ParameterMetadata)
  responses : Option (List (String × ResponseObject))
deriving Repr

/-- A decorator call with no options object. -/
def emptyRoutePartial : RoutePartial := ⟨none, none, none, none, none, none, none, none⟩

/-- Models the calls `getTypeSchema({})` in the decorator (lines
533/540/546 of src/decorators.ts): the argument is a fresh empty object
literal, so its cache identity can never be hit again and only the
computed schema (`processObjectInstance` of an empty instance) is kept. -/
def getTypeSchemaEmptyObject (env : TypeEnv) (fuel : Nat) (cache : Cache) :
    Option (SchemaObject × Cache) :=
  match go env fuel (.objInstQ []) cache with
  | some (.schema s, c) => some (s, c)
  | _ => none

/-- The success-response schema inference of `createMethodDecorator`
(src/decorators.ts lines 489-586).  `returnMatch` is the captured group
of `methodImpl.match(/return\s+([^;]+)/)` on the handler's source text,
`none` when the regex does not match (the group is nonempty whenever the
regex matches, so `returnMatch && returnMatch[1]` is just a match
test). -/
def inferredSuccessSchema (env : TypeEnv) (fuel : Nat) (rt : Nat)
    (parameters : List ParameterMetadata) (paramTypes : List Nat)
    (returnMatch : Option String) (cache : Cache) : Option (SchemaObject × Cache) :=
  let rtDesc := env.univ[rt]?
  let rtIsArray : Bool := match rtDesc with | some (.arrayT _) => true | _ => false
  let typeString : String := match rtDesc with | some (.arrayT ts) => ts | _ => ""
  if rtIsArray then
    if strIncludes typeString "Array<" || strIncludes typeString "[]" then
      match returnMatch with
      | some g =>
        let returnStmt := g.trim
        if startsWithChar returnStmt '[' || strIncludes returnStmt ".map"
            || strIncludes returnStmt ".filter" then
          some (arraySchema objectSchema, cache)
        else
          let paramIndex : Option Nat :=
            if strIncludes returnStmt "param" then parseIntDigits returnStmt else none
          match paramIndex with
          | some i =>
            if h : i < paramTypes.length then
              match getTypeSchema env fuel (paramTypes.get ⟨i, h⟩) cache with
              | some (s, c) => some (arraySchema s, c)
              | none => none
            else
              match getTypeSchemaEmptyObject env fuel cache with
              | some (s, c) => some (arraySchema s, c)
              | none => none
          | none =>
            match getTypeSchemaEmptyObject env fuel cache with
            | some (s, c) => some (arraySchema s, c)
            | none => none
      | none =>
        match getTypeSchemaEmptyObject env fuel cache with
        | some (s, c) => some (arraySchema s, c)
        | none => none
    else some (arraySchema objectSchema, cache)
  else
    match returnMatch with
    | some g =>
      let returnStmt := g.trim
      if strIncludes returnStmt "requestBody" || hasParamDigitStr returnStmt
          || parameters.any (fun p => strIncludes returnStmt p.name) then
        match (parameters.find? (fun p => p.paramIn = "body")).bind (fun p => p.schema) with
        | some ps => some (ps, cache)
        | none => getTypeSchema env fuel rt cache
      else getTypeSchema env fuel rt cache
    | none => getTypeSchema env fuel rt cache

/-- Embedding of the decorator produced by `createMethodDecorator`
(src/decorators.ts lines 459-609) as applied to one method.  The inputs
are what the decorator reads at declaration time: `paramTypes`
(`design:paramtypes`), `returnType` (`design:returntype`; absent when
the method declares no return type), `decoratedParameters`
(`custom:parameters` written by `@Body`), `pendingResponses`
(`openapi:responses`) and `returnMatch` as above.  The result is the
registered route metadata plus the updated schema cache; `none` only
when the engine's fuel runs out. -/
def createMethodDecorator (env : TypeEnv) (fuel : Nat) (method : String) (path : String)
    (options : RoutePartial) (propertyKey : String)
    (paramTypes : List Nat) (returnType : Option Nat)
    (decoratedParameters : List ParameterMetadata)
    (pendingResponses : List (String × ResponseObject))
    (returnMatch : Option String) (cache : Cache) : Option (RouteMetadata × Cache) :=
  let bodySynth : Option (List ParameterMetadata × Cache) :=
    if decoratedParameters.isEmpty ∧ (method = "post" ∨ method = "put" ∨ method = "patch")
        ∧ paramTypes.length > 0 then
      match paramTypes with
      | [] => some (decoratedParameters, cache)
      | bodyType :: _ =>
        match getTypeSchema env fuel bodyType cache with
        | some (s, c1) =>
          some ([{ name := "body", paramIn := "body", required := some true, type := "object",
                   description := some "Request body", schema := some s }], c1)
        | none => none
    else some (decoratedParameters, cache)
  match bodySynth with
  | none => none
  | some (parameters, c1) =>
    let responses := pendingResponses
    let hasSuccessResponse :=
      (alookup "200" responses).isSome || (alookup "201" responses).isSome ||
        (if method = "post" then (alookup "201" responses).isSome
         else (alookup "200" responses).isSome)
    let withSuccess : Option ((List (String × ResponseObject)) × Cache) :=
      match returnType with
      | none => some (responses, c1)
      | some rt =>
        if hasSuccessResponse then some (responses, c1)
        else
          match inferredSuccessSchema env fuel rt parameters paramTypes returnMatch c1 with
          | none => none
          | some (schema, c2) =>
            some (assocSet responses (if method = "post" then "201" else "200")
              { description := if method = "post" then "Created successfully"
                               else "Successful response"
                content := some [("application/json", schema)] }, c2)
    match withSuccess with
    | none => none
    | some (responses2, c2) =>
      some ({ path := options.path.getD
                (if path = "/" then "/"
                 else if startsWithChar path '/' then path else "/" ++ path)
              method := options.method.getD method
              handlerName := options.handlerName.getD propertyKey
              description := options.description
              summary := options.summary
              tags := options.tags
              parameters := some (options.parameters.getD parameters)
              responses := some (options.responses.getD responses2) }, c2)

/-- Partial<ControllerMetadata>: the options of the class decorator. -/
structure ControllerPartial where
  path : Option String
  description : Option String
  tags : Option (List String)
deriving Repr

/-- Options-free controller decoration. -/
def emptyControllerPartial : ControllerPartial := ⟨none, none, none⟩

/-- Embedding of the `Controller` class decorator (src/decorators.ts
lines 83-91): normalize the path to begin with '/', then spread the
options, whose present fields override. -/
def Controller (path : String) (options : ControllerPartial) : ControllerMetadata :=
  { path := options.path.getD (if startsWithChar path '/' then path else "/" ++ path)
    description := options.description
    tags := options.tags }

/-- Outcome of invoking a controller method at request time: a resolved
value (`none` models `undefined`) or a thrown error / rejected promise
whose message is the given string (the empty string also stands for an
absent message; both are falsy in `error.message || ...`). -/
inductive HandlerOutcome (α : Type) where
  | resolves (value : Option α)
  | failure (message : String)

/-- What the wrapper wrote to the response: a payload or an error text. -/
inductive SentBody (α : Type) where
  | payload (v : α)
  | text (s : String)

/-- The response produced by one dispatch of the wrapper. -/
structure HttpReply (α : Type) where
  status : Nat
  body : Option (SentBody α)

/-- The per-request dispatch wrapper registered by `registerControllers`
(src/register.ts lines 66-76): await the handler's result, send it when
it is not undefined (status stays the Express default 200), and on a
thrown error or rejected promise respond 500 with the error's message or
the default text. -/
def routeHandler {α : Type} (outcome : HandlerOutcome α) : HttpReply α :=
  match outcome with
  | .resolves none => { status := 200, body := none }
  | .resolves (some v) => { status := 200, body := some (.payload v) }
  | .failure m =>
    { status := 500
      body := some (.text (if m = "" then "Internal Server Error" else m)) }

/-- The responses field of the emitted operation is always
`route.responses || default`, whatever the parameters are. -/
theorem buildRouteSpec_responses (cm : ControllerMetadata) (route : RouteMetadata) :
    (buildRouteSpec cm route).responses = route.responses.getD defaultResponses := by
  simp only [buildRouteSpec]
  split
  · rfl
  · split
    · split
      · split <;> rfl
      · split <;> rfl
    · rfl

/-- C7: a registered handler that throws (or returns a rejecting
promise) is answered with HTTP 500 and the error's message text —
or the default text when the message is absent/empty; in particular
`Error("x")` yields 500 with body text `"x"`. -/
theorem c7_handler_error_yields_500 :
    (∀ (α : Type) (m : String),
      (routeHandler (HandlerOutcome.failure m : HandlerOutcome α)).status = 500 ∧
      (routeHandler (HandlerOutcome.failure m : HandlerOutcome α)).body =
        some (.text (if m = "" then "Internal Server Error" else m))) ∧
    (routeHandler (HandlerOutcome.failure "x" : HandlerOutcome Unit)).status = 500 ∧
    (routeHandler (HandlerOutcome.failure "x" : HandlerOutcome Unit)).body =
      some (.text "x") :=
  ⟨fun _ _ => ⟨rfl, rfl⟩, rfl, rfl⟩

/-- Number of leading '/' characters of a string. -/
def leadingSlashCount (s : String) : Nat :=
  (s.data.takeWhile (fun c => c = '/')).length

/-- Counterexample to C8 as stated: a controller path given with two
leading slashes is recorded unchanged by the `Controller` decorator, so
the recorded base path does not start with exactly one leading '/'. -/
theorem c8_counterexample :
    (Controller "//a" emptyControllerPartial).path = "//a" ∧
    leadingSlashCount (Controller "//a" emptyControllerPartial).path = 2 ∧
    leadingSlashCount (Controller "//a" emptyControllerPartial).path ≠ 1 :=
  ⟨rfl, by decide, by decide⟩

/-- C8 amended: with no path override in the options, the recorded
controller path always starts with at least one '/', and with exactly
one leading '/' whenever the given path itself has at most one. -/
theorem c8_amended_leading_slash (p : String) (options : ControllerPartial)
    (ho : options.path = none) :
    1 ≤ leadingSlashCount (Controller p options).path ∧
    (leadingSlashCount p ≤ 1 → leadingSlashCount (Controller p options).path = 1) := by
  have hpath : (Controller p options).path =
      (if startsWithChar p '/' then p else "/" ++ p) := by
    simp [Controller, ho]
  have hcons : ∀ l : List Char,
      ('/' :: l).takeWhile (fun c => c = '/') = '/' :: l.takeWhile (fun c => c = '/') := by
    intro l
    simp [List.takeWhile_cons]
  by_cases hs : startsWithChar p '/'
  · rw [hpath, if_pos hs]
    cases hd : p.data with
    | nil => rw [startsWithChar, hd] at hs; cases hs
    | cons c cs =>
      have hc : c = '/' := by
        rw [startsWithChar, hd] at hs
        simpa using hs
      subst hc
      constructor
      · simp only [leadingSlashCount, hd, hcons, List.length_cons]
        omega
      · intro h1
        simp only [leadingSlashCount, hd, hcons, List.length_cons] at h1 ⊢
        omega
  · rw [hpath, if_neg hs]
    have hd : ("/" ++ p).data = '/' :: p.data := rfl
    have hpd : p.data.takeWhile (fun c => c = '/') = [] := by
      cases hdp : p.data with
      | nil => rfl
      | cons c cs =>
        have hc : ¬ c = '/' := by
          rw [startsWithChar, hdp] at hs
          simpa using hs
        simp [List.takeWhile_cons, hc]
    constructor
    · simp only [leadingSlashCount, hd, hcons, List.length_cons]
      omega
    · intro h1
      simp only [leadingSlashCount, hd, hcons, hpd, List.length_cons, List.length_nil]

/-- Witness for the amended C8 at a path without and a path with one
leading slash. -/
theorem c8_amended_leading_slash_witness :
    leadingSlashCount (Controller "users" emptyControllerPartial).path = 1 ∧
    leadingSlashCount (Controller "/users" emptyControllerPartial).path = 1 :=
  ⟨(c8_amended_leading_slash "users" emptyControllerPartial rfl).2 (by decide),
   (c8_amended_leading_slash "/users" emptyControllerPartial rfl).2 (by decide)⟩

/-- An empty type-descriptor graph. -/
def envEmpty : TypeEnv := ⟨[], fun _ => none⟩

/-- A graph with a single String descriptor at node 0. -/
def envString : TypeEnv := ⟨[.stringT], fun _ => none⟩

/-- A controller used only to build operations in counterexamples. -/
def cmAny : ControllerMetadata := ⟨"/x", none, none⟩

/-- The route registered by `Get('/')` on a handler with no declared
types, no `@Body` parameters and no pending responses. -/
def routeGetNoResp : RouteMetadata :=
  ⟨"/", "get", "getUsers", none, none, none, some [], some []⟩

/-- Counterexample to C3 as stated: a `Get('/')` route registered
through the method decorator with no declared, inferred or pending
response carries `responses = {}` — a present empty object, not an
absent field — so the generator's `route.responses || default` fallback
does not fire and the emitted operation has empty responses instead of
the default `{'200': 'Successful response'}`. -/
theorem c3_counterexample :
    createMethodDecorator envEmpty 1 "get" "/" emptyRoutePartial "getUsers" [] none [] [] none []
      = some (routeGetNoResp, []) ∧
    (buildRouteSpec cmAny routeGetNoResp).responses = [] ∧
    (buildRouteSpec cmAny routeGetNoResp).responses ≠ defaultResponses :=
  ⟨rfl, rfl, fun hcontra => List.noConfusion hcontra⟩

/-- C3 amended: the default `{'200': {description: 'Successful
response'}}` applies exactly when the route's responses field is absent;
a method-decorator route always carries a responses object — empty when
no response was declared or inferred — and the generator then emits that
(possibly empty) object rather than the default. -/
theorem c3_amended_default_responses :
    (∀ (cm : ControllerMetadata) (route : RouteMetadata), route.responses = none →
      (buildRouteSpec cm route).responses = defaultResponses) ∧
    (∀ (env : TypeEnv) (fuel : Nat) (method path : String) (options : RoutePartial)
        (key : String) (paramTypes : List Nat) (cache : Cache)
        (route : RouteMetadata) (c' : Cache) (cm : ControllerMetadata),
      options.responses = none →
      createMethodDecorator env fuel method path options key paramTypes none [] [] none cache
        = some (route, c') →
      route.responses = some [] ∧ (buildRouteSpec cm route).responses = []) := by
  constructor
  · intro cm route h
    rw [buildRouteSpec_responses, h]
    rfl
  · intro env fuel method path options key paramTypes cache route c' cm hopt hrun
    simp only [createMethodDecorator] at hrun
    split at hrun
    · exact Option.noConfusion hrun
    · simp only [Option.some.injEq, Prod.mk.injEq] at hrun
      obtain ⟨hroute, -⟩ := hrun
      subst hroute
      refine ⟨by simp [hopt], ?_⟩
      rw [buildRouteSpec_responses]
      simp [hopt]

/-- Witness for the amended C3: the default fires for a route whose
responses field is absent, and stays off for a decorator-registered
route with nothing declared. -/
theorem c3_amended_default_responses_witness :
    (buildRouteSpec cmAny routeUsersGet).responses = defaultResponses ∧
    (buildRouteSpec cmAny routeGetNoResp).responses = [] :=
  ⟨c3_amended_default_responses.1 cmAny routeUsersGet rfl,
   (c3_amended_default_responses.2 envEmpty 1 "get" "/" emptyRoutePartial "getUsers" [] []
     routeGetNoResp [] cmAny rfl rfl).2⟩

/-- The body parameter synthesized from the first declared parameter
type of a POST handler (here a String). -/
def pBodySynth : ParameterMetadata :=
  ⟨"body", "body", some true, "object", some "Request body", some stringSchema⟩

/-- The route registered by `Post('/')` on a handler with a declared
String parameter and no declared return type. -/
def routePostNoReturn : RouteMetadata :=
  ⟨"/", "post", "createUser", none, none, none, some [pBodySynth], some []⟩

/-- Counterexample to C4 as stated: a POST handler with a declared
parameter (from which the body parameter is synthesized) but no declared
return type gets no default success response — the registered responses
map is empty, with no entry under '201'. -/
theorem c4_counterexample :
    createMethodDecorator envString 1 "post" "/" emptyRoutePartial "createUser" [0] none [] []
        none []
      = some (routePostNoReturn, [(0, stringSchema)]) ∧
    routePostNoReturn.parameters = some [pBodySynth] ∧
    routePostNoReturn.responses = some [] ∧
    alookup "201" ([] : List (String × ResponseObject)) = none :=
  ⟨rfl, rfl, rfl, rfl⟩

/-- C4 amended: route registration records the default success response
— status '201' for POST, '200' for PUT/PATCH and every other method —
exactly when the handler has a declared return type and no 200/201
response was already supplied; an already-present 200 or 201 suppresses
the default. -/
theorem c4_amended_success_default (env : TypeEnv) (fuel : Nat) (method path : String)
    (options : RoutePartial) (key : String) (paramTypes : List Nat) (rt : Nat)
    (dparams : List ParameterMetadata) (pending : List (String × ResponseObject))
    (rm : Option String) (cache : Cache) (route : RouteMetadata) (c' : Cache)
    (hopt : options.responses = none)
    (hrun : createMethodDecorator env fuel method path options key paramTypes (some rt)
      dparams pending rm cache = some (route, c')) :
    ((alookup "200" pending = none ∧ alookup "201" pending = none) →
      ∃ schema, route.responses = some
        (assocSet pending (if method = "post" then "201" else "200")
          { description := if method = "post" then "Created successfully"
                           else "Successful response"
            content := some [("application/json", schema)] })) ∧
    (((alookup "200" pending).isSome ∨ (alookup "201" pending).isSome) →
      route.responses = some pending) := by
  simp only [createMethodDecorator] at hrun
  split at hrun
  · exact Option.noConfusion hrun
  · constructor
    · rintro ⟨h200, h201⟩
      have hSf : ¬ (((alookup "200" pending).isSome || (alookup "201" pending).isSome ||
          (if method = "post" then (alookup "201" pending).isSome
           else (alookup "200" pending).isSome)) = true) := by
        by_cases hm : method = "post" <;> simp [hm, h200, h201]
      rw [if_neg hSf] at hrun
      split at hrun
      · exact Option.noConfusion hrun
      · rename_i responses2 c2 heq
        simp only [Option.some.injEq, Prod.mk.injEq] at hrun
        obtain ⟨hroute, -⟩ := hrun
        subst hroute
        split at heq
        · exact Option.noConfusion heq
        · rename_i schema c2x hscrut
          simp only [Option.some.injEq, Prod.mk.injEq] at heq
          obtain ⟨hresp, -⟩ := heq
          subst hresp
          exact ⟨schema, by simp [hopt]⟩
    · intro hOr
      have hS : ((alookup "200" pending).isSome || (alookup "201" pending).isSome ||
          (if method = "post" then (alookup "201" pending).isSome
           else (alookup "200" pending).isSome)) = true := by
        rcases hOr with h | h
        · simp [h]
        · simp [h]
      rw [if_pos hS] at hrun
      simp only [Option.some.injEq, Prod.mk.injEq] at hrun
      obtain ⟨hroute, -⟩ := hrun
      subst hroute
      simp [hopt]

/-- The route registered in the C4 amended witness scenario: POST with a
declared String return type and nothing else. -/
def routeC4 : RouteMetadata :=
  ⟨"/", "post", "c", none, none, none, some [],
   some [("201", ⟨"Created successfully", some [("application/json", stringSchema)]⟩)]⟩

/-- Witness for the amended C4: a POST handler with a declared String
return type and no supplied responses gets the default success response
under status '201'. -/
theorem c4_amended_success_default_witness :
    ∃ schema, routeC4.responses =
      some [("201", ⟨"Created successfully", some [("application/json", schema)]⟩)] := by
  have h := (c4_amended_success_default envString 2 "post" "/" emptyRoutePartial "c" [] 0 [] []
    none [] routeC4 [(0, stringSchema)] rfl rfl).1 ⟨rfl, rfl⟩
  obtain ⟨schema, hs⟩ := h
  exact ⟨schema, hs⟩

end OET
